import Mathlib

/-!
Verification development for the THK-apiTool repository (Go).

Strings are modelled as `List Char` (`Str`).  Each definition is a direct
translation of the named Go function; external effects (HTTP, filesystem,
stdin) are passed in as explicit parameters.  Go runtime panics (out-of-range
slice indexing) are modelled as a distinguished error value so that control
flow around them can be stated faithfully.
-/

deriving instance DecidableEq for Except

namespace ThinkerTools

abbrev Str := List Char

/-- Boolean test that `p` is a leading segment of `s` (char-by-char). -/
def pfx : Str → Str → Bool
  | [], _ => true
  | _ :: _, [] => false
  | a :: as, b :: bs => a = b && pfx as bs

/-- Scanner for `splitOnSep`: while `skip > 0` the character belongs to an
already-recognised separator occurrence and is dropped. -/
def splitOnSepGo (sep : Str) (skip : Nat) : Str → List Str
  | [] => [[]]
  | c :: cs =>
    match skip with
    | n + 1 => splitOnSepGo sep n cs
    | 0 =>
      if sep ≠ [] ∧ pfx sep (c :: cs) then
        [] :: splitOnSepGo sep (sep.length - 1) cs
      else
        match splitOnSepGo sep 0 cs with
        | [] => [[c]]
        | l :: ls => (c :: l) :: ls

/-- Model of Go `strings.Split(s, sep)` for a nonempty separator: splits
around each leftmost non-overlapping occurrence of `sep`.  (The Go
empty-separator behaviour is never exercised by this repository: the
separators used are `"||"` and `"\\"`.) -/
def splitOnSep (sep : Str) (s : Str) : List Str :=
  splitOnSepGo sep 0 s

/-- Scanner for `replaceAll`, with the same skip-counter device. -/
def replaceAllGo (p r : Str) (skip : Nat) : Str → Str
  | [] => []
  | c :: cs =>
    match skip with
    | n + 1 => replaceAllGo p r n cs
    | 0 =>
      if p ≠ [] ∧ pfx p (c :: cs) then
        r ++ replaceAllGo p r (p.length - 1) cs
      else
        c :: replaceAllGo p r 0 cs

/-- Model of Go `strings.ReplaceAll(s, p, r)` for a nonempty pattern `p`:
replaces the leftmost non-overlapping occurrences of `p` in `s` by `r`. -/
def replaceAll (p r s : Str) : Str :=
  replaceAllGo p r 0 s

theorem pfx_length_le {p s : Str} (h : pfx p s = true) : p.length ≤ s.length := by
  induction p generalizing s with
  | nil => simp
  | cons a as ih =>
    cases s with
    | nil => simp [pfx] at h
    | cons b bs =>
      simp only [pfx, Bool.and_eq_true] at h
      simpa using ih h.2

theorem replaceAllGo_skip (p r : Str) :
    ∀ (n : Nat) (s : Str), n ≤ s.length →
      replaceAllGo p r n s = replaceAllGo p r 0 (s.drop n) := by
  intro n
  induction n with
  | zero => simp
  | succ m ih =>
    intro s hs
    cases s with
    | nil => simp at hs
    | cons c cs =>
      simp only [List.length_cons] at hs
      simpa [replaceAllGo] using ih cs (by omega)

/-- The one-step unfolding of `replaceAll` on a nonempty string. -/
theorem replaceAll_cons (p r : Str) (c : Char) (cs : Str) :
    replaceAll p r (c :: cs) =
      if p ≠ [] ∧ pfx p (c :: cs) then
        r ++ replaceAll p r (cs.drop (p.length - 1))
      else
        c :: replaceAll p r cs := by
  unfold replaceAll
  simp only [replaceAllGo]
  split
  · rename_i h
    have hle : p.length ≤ cs.length + 1 := by
      simpa using pfx_length_le h.2
    rw [replaceAllGo_skip p r (p.length - 1) cs (by omega)]
  · rfl

/-- Decimal digits of a natural number, most significant first. -/
def natDecimal (n : Nat) : Str :=
  Nat.toDigits 10 n

/-- Model of Go `strconv.FormatInt(n, 10)`. -/
def formatInt10 (n : Int) : Str :=
  if n < 0 then '-' :: natDecimal n.natAbs else natDecimal n.natAbs

/-! ### Go `time` model: parsing layouts `"02-01-2006"` / `"2-1-2006"` and `Time.Unix`

`time.Parse` with these layouts accepts a day, month and 4-digit year
separated by `-`; the zero-padded forms require exactly two digits, the
bare forms one or two digits.  No time-of-day or zone appears in the layout,
so the result is midnight UTC and `Unix()` is 86400 times the civil day
number relative to 1970-01-01. -/

/-- Two mandatory decimal digits (Go `getnum` with `fixed = true`). -/
def parseNum2 : Str → Option (Nat × Str)
  | c1 :: c2 :: rest =>
    if c1.isDigit ∧ c2.isDigit then
      some ((c1.toNat - 48) * 10 + (c2.toNat - 48), rest)
    else none
  | _ => none

/-- One or two decimal digits (Go `getnum` with `fixed = false`). -/
def parseNum12 : Str → Option (Nat × Str)
  | [] => none
  | c :: rest =>
    if c.isDigit then
      match rest with
      | d :: rest2 =>
        if d.isDigit then some ((c.toNat - 48) * 10 + (d.toNat - 48), rest2)
        else some (c.toNat - 48, rest)
      | [] => some (c.toNat - 48, rest)
    else none

/-- Exactly four decimal digits (Go `stdLongYear`). -/
def parseNum4 : Str → Option (Nat × Str)
  | c1 :: c2 :: c3 :: c4 :: rest =>
    if c1.isDigit ∧ c2.isDigit ∧ c3.isDigit ∧ c4.isDigit then
      some (((c1.toNat - 48) * 10 + (c2.toNat - 48)) * 100 +
              (c3.toNat - 48) * 10 + (c4.toNat - 48), rest)
    else none
  | _ => none

def isLeapYear (y : Nat) : Bool :=
  y % 4 = 0 && (y % 100 ≠ 0 || y % 400 = 0)

def daysInMonth (y m : Nat) : Nat :=
  if m = 2 then (if isLeapYear y then 29 else 28)
  else if m = 4 ∨ m = 6 ∨ m = 9 ∨ m = 11 then 30
  else 31

/-- Model of Go `time.Parse` restricted to the two layouts used by
`convertSingleValue`: `padded = true` is `"02-01-2006"`, `padded = false`
is `"2-1-2006"`.  The whole input must be consumed and the day/month must
be in calendar range, as `time.Parse` checks. -/
def goParseDMY (padded : Bool) (s : Str) : Option (Nat × Nat × Nat) := do
  let pn := if padded then parseNum2 else parseNum12
  let (d, s1) ← pn s
  match s1 with
  | '-' :: s2 =>
    let (m, s3) ← pn s2
    match s3 with
    | '-' :: s4 =>
      let (y, s5) ← parseNum4 s4
      if s5 = [] ∧ 1 ≤ m ∧ m ≤ 12 ∧ 1 ≤ d ∧ d ≤ daysInMonth y m then
        some (y, m, d)
      else none
    | _ => none
  | _ => none

/-- Civil day number of `y-m-d` relative to 1970-01-01 (the standard
days-from-civil computation, as performed inside Go's `time` package). -/
def daysFromCivil (y m d : Int) : Int :=
  let yy : Int := if m ≤ 2 then y - 1 else y
  let era : Int := (if 0 ≤ yy then yy else yy - 399) / 400
  let yoe : Int := yy - era * 400
  let mp : Int := if 2 < m then m - 3 else m + 9
  let doy : Int := (153 * mp + 2) / 5 + d - 1
  let doe : Int := yoe * 365 + yoe / 4 - yoe / 100 + doy
  era * 146097 + doe - 719468

/-- `Time.Unix()` for midnight UTC on `y-m-d`. -/
def unixOfDate (y m d : Nat) : Int :=
  daysFromCivil y m d * 86400

/-! ### Go `encoding/base64` (StdEncoding) and `encoding/json` string marshalling -/

def b64Alphabet : Str :=
  "ABCDEFGHIJKLMNOPQRSTUVWXYZabcdefghijklmnopqrstuvwxyz0123456789+/".data

def b64Char (n : Nat) : Char := b64Alphabet.getD n 'A'

/-- Model of Go `base64.StdEncoding.EncodeToString` on a byte list. -/
def base64Encode : List Nat → Str
  | [] => []
  | [a] => [b64Char (a / 4), b64Char (a % 4 * 16), '=', '=']
  | [a, b] => [b64Char (a / 4), b64Char (a % 4 * 16 + b / 16), b64Char (b % 16 * 4), '=']
  | a :: b :: c :: rest =>
    b64Char (a / 4) :: b64Char (a % 4 * 16 + b / 16) ::
      b64Char (b % 16 * 4 + c / 64) :: b64Char (c % 64) :: base64Encode rest

def hexDigit (n : Nat) : Char :=
  "0123456789abcdef".data.getD n '0'

/-- Escaping of one character by Go `encoding/json` (default encoder:
HTML-escaping on, so `<`, `>`, `&` become `\u00XX`; `\n`, `\r`, `\t` use the
short forms, other control characters use `\u00XX`). -/
def goJsonEscapeChar (c : Char) : Str :=
  if c = '"' then ['\\', '"']
  else if c = '\\' then ['\\', '\\']
  else if c = '\n' then ['\\', 'n']
  else if c = '\r' then ['\\', 'r']
  else if c = '\t' then ['\\', 't']
  else if c = '<' ∨ c = '>' ∨ c = '&' then
    ['\\', 'u', '0', '0', hexDigit (c.toNat / 16), hexDigit (c.toNat % 16)]
  else if c.toNat < 32 then
    ['\\', 'u', '0', '0', hexDigit (c.toNat / 16), hexDigit (c.toNat % 16)]
  else if c.toNat = 0x2028 ∨ c.toNat = 0x2029 then
    ['\\', 'u', '2', '0', '2', hexDigit (c.toNat % 16)]
  else [c]

def goJsonEscape (s : Str) : Str := s.flatMap goJsonEscapeChar

/-- A double-quoted, escaped JSON string literal. -/
def jsonQuoted (x : Str) : Str := '"' :: (goJsonEscape x ++ ['"'])

/-- Comma-separated list of JSON string literals. -/
def jsonElems : List Str → Str
  | [] => []
  | [x] => jsonQuoted x
  | x :: xs => jsonQuoted x ++ (',' :: jsonElems xs)

/-- Model of Go `json.Marshal` applied to a `[]string`: a JSON array of
escaped, double-quoted strings with no extra whitespace. -/
def jsonMarshalStringList (xs : List Str) : Str :=
  '[' :: (jsonElems xs ++ [']'])

/-! ### `convertSingleValue`, `convertValue`, `getFieldName`, `convertRecordToJSON`
(src/golangFunction/applyMultiCaseID/answerQuestionFromCsv.go) -/

/-- Row-scoped failure of value conversion.  `panicked` stands for a Go
runtime panic (out-of-range index), which is not an `error` value in the
source: it aborts the whole process instead of being logged. -/
inductive CErr where
  | parseFailed
  | fileReadFailed
  | panicked
deriving DecidableEq, Repr

/-- The filesystem as seen by `convertSingleValue`: contents (bytes) of the
file named by a cell under `4. answerAndQuestion/file`, or `none` when
unreadable. -/
abbrev FileSys := Str → Option (List Nat)

/-- ASCII model of Go `strings.ToLower` (the repository only lowercases
boolean literals such as `TRUE`/`False`; Unicode case tables are elided). -/
def asciiToLower (s : Str) : Str := s.map Char.toLower

def dataUriPrelude : Str := "data:application/octet-stream;base64,".data

/-- Direct translation of `convertSingleValue` (answerQuestionFromCsv.go:69). -/
def convertSingleValue (fs : FileSys) (value dataType : Str) : Except CErr Str :=
  if dataType = "date".data ∨ dataType = "date_time".data then
    match goParseDMY true value with
    | some (y, m, d) => .ok (formatInt10 (unixOfDate y m d))
    | none =>
      match goParseDMY false value with
      | some (y, m, d) => .ok (formatInt10 (unixOfDate y m d))
      | none => .error .parseFailed
  else if dataType = "boolean".data then
    .ok (asciiToLower value)
  else if dataType = "file".data then
    match fs value with
    | some bytes => .ok (dataUriPrelude ++ base64Encode bytes)
    | none => .error .fileReadFailed
  else
    .ok value

/-- `getFieldName` (answerQuestionFromCsv.go:64): portion of the header
before the first `"||"`. -/
def getFieldName (header : Str) : Str :=
  (splitOnSep ('|' :: '|' :: []) header).headI

/-- Coerce each backslash-delimited sub-value in order, stopping at the
first failure (the loop body of the MULTI branch of `convertValue`). -/
def convertEach (fs : FileSys) (dataType : Str) : List Str → Except CErr (List Str)
  | [] => .ok []
  | v :: vs =>
    match convertSingleValue fs v dataType with
    | .error e => .error e
    | .ok s =>
      match convertEach fs dataType vs with
      | .error e => .error e
      | .ok rest => .ok (s :: rest)

/-- Direct translation of `convertValue` (answerQuestionFromCsv.go:95).
The Go code reads `parts[1]` before any length check, so a header without
`"||"` is a runtime panic, modelled by `CErr.panicked`. -/
def convertValue (fs : FileSys) (value header : Str) : Except CErr Str :=
  let parts := splitOnSep ('|' :: '|' :: []) header
  if parts.length < 2 then .error .panicked
  else
    let dataType := parts.getD 1 []
    if 2 < parts.length ∧ parts.getD 2 [] = "MULTI".data then
      match convertEach fs dataType (splitOnSep ['\\'] value) with
      | .ok stringValues => .ok (jsonMarshalStringList stringValues)
      | .error e => .error e
    else
      convertSingleValue fs value dataType

structure Answer where
  field_name : Str
  field_value : Str
  source : Str
deriving DecidableEq, Repr

structure AnswerPayload where
  case_id : Str
  is_question_mode : Bool
  answers : List Answer
deriving DecidableEq, Repr

/-- The loop of `convertRecordToJSON` over `record[1:]`, pairing cell `i`
with header `i+1`; running past the end of the header row is the Go panic
`headers[i+1]` out of range. -/
def buildAnswers (fs : FileSys) : List Str → List Str → Except CErr (List Answer)
  | [], _ => .ok []
  | _ :: _, [] => .error .panicked
  | v :: vs, h :: hs =>
    match convertValue fs v h with
    | .error e => .error e
    | .ok cv =>
      match buildAnswers fs vs hs with
      | .error e => .error e
      | .ok rest =>
        .ok ({ field_name := getFieldName h, field_value := cv,
               source := "customer".data } :: rest)

/-- Direct translation of `convertRecordToJSON` (answerQuestionFromCsv.go:41).
`record[0]` on an empty record is a Go panic. -/
def convertRecordToJSON (fs : FileSys) (record headers : List Str) :
    Except CErr AnswerPayload :=
  match record with
  | [] => .error .panicked
  | r0 :: rest =>
    match buildAnswers fs rest (headers.drop 1) with
    | .error e => .error e
    | .ok answers =>
      .ok { case_id := r0, is_question_mode := false, answers := answers }

/-! ### Spec-side JSON array reader (refinement target for the MULTI claim)

Modelled from the spec: "splitting on `\` then re-joining coerced sub-values
into a JSON array must produce a valid JSON array whose length equals the
number of `\`-delimited sub-values".  This reader follows the spec's words
(a valid JSON array of string literals and its element count); it is the
yardstick the marshaller's output is checked against, not a translation of
repository code. -/

/-- Consume a JSON string body after its opening quote; `some rest` is the
text after the closing quote. -/
def skipStringBody : Str → Option Str
  | [] => none
  | '"' :: rest => some rest
  | '\\' :: _ :: rest => skipStringBody rest
  | '\\' :: [] => none
  | _ :: rest => skipStringBody rest

/-- Count comma-separated JSON string elements up to the closing bracket. -/
def countArrayTail : Nat → Str → Option Nat
  | 0, _ => none
  | fuel + 1, '"' :: rest =>
    match skipStringBody rest with
    | none => none
    | some rem =>
      match rem with
      | ',' :: rest2 => (countArrayTail fuel rest2).map (· + 1)
      | [']'] => some 1
      | _ => none
  | _ + 1, _ => none

/-- `some n` iff the input is a valid JSON array of exactly `n` string
literals (spec-side definition). -/
def specCountArrayElems (s : Str) : Option Nat :=
  match s with
  | '[' :: rest => if rest = [']'] then some 0 else countArrayTail rest.length rest
  | _ => none

/-! ### `processRecords` worker loop (answerQuestionFromCsv.go:132) -/

/-- Outcome of `types.MakeRequest` for one record: transport failure or a
response with a status code. -/
inductive SendOutcome where
  | sendFailed
  | responded (status : Nat)
deriving DecidableEq, Repr

abbrev SendOracle := List Str → SendOutcome

/-- One log line written by the worker (event field only; timestamps and
bodies are free-form text in the source). -/
inductive LogEvent where
  | conversionError (record : List Str)
  | requestError (record : List Str)
  | responseReceived (record : List Str) (status : Nat)
deriving DecidableEq, Repr

/-- Direct translation of the body of `processRecords` applied to the
records a worker drains from the channel, in order.  A conversion `error`
is logged and the record skipped; a Go panic (`CErr.panicked`) is not an
error value and kills the process, modelled as `Except.error ()`. -/
def processRecordsSeq (fs : FileSys) (headersRow : List Str) (send : SendOracle) :
    List (List Str) → Except Unit (List LogEvent × List Nat)
  | [] => .ok ([], [])
  | record :: rest =>
    match convertRecordToJSON fs record headersRow with
    | .error .panicked => .error ()
    | .error _ =>
      match processRecordsSeq fs headersRow send rest with
      | .error () => .error ()
      | .ok (logs, sts) => .ok (.conversionError record :: logs, sts)
    | .ok _ =>
      match send record with
      | .sendFailed =>
        match processRecordsSeq fs headersRow send rest with
        | .error () => .error ()
        | .ok (logs, sts) => .ok (.requestError record :: logs, sts)
      | .responded code =>
        match processRecordsSeq fs headersRow send rest with
        | .error () => .error ()
        | .ok (logs, sts) => .ok (.responseReceived record code :: logs, code :: sts)

/-! ### Dispatch transition system (ProcessAnswerQuestionFromCSVData, lines 254-272)

The producer pushes `records[1:]` one by one into `jobs` (a channel of
capacity `concurrentRequests`) and closes it; each of the
`concurrentRequests` workers repeatedly receives a record, processes it,
and exits once the channel is closed and drained; `wg.Wait` returns when
every worker has exited. -/

abbrev Row := List Str

inductive WStat where
  | idle
  | busy (r : Row)
  | finished
deriving DecidableEq, Repr

structure DState where
  sent : Nat
  chClosed : Bool
  queue : List Row
  workers : List WStat
  processedRows : List Row
deriving DecidableEq, Repr

def initDState (k : Nat) : DState :=
  { sent := 0, chClosed := false, queue := [], workers := List.replicate k .idle,
    processedRows := [] }

/-- One interleaving step of the dispatch run: `push` and `closeCh` are the
producer loop and `close(jobs)`; `recv`, `complete` and `exitLoop` are a
worker's receive from `jobs`, the end of one loop body, and the `range`
loop terminating on a closed drained channel. -/
inductive DStep (rows : List Row) (cap : Nat) : DState → DState → Prop
  | push (s : DState) (h1 : s.sent < rows.length) (h2 : s.queue.length < cap)
      (h3 : ¬s.chClosed) :
      DStep rows cap s
        { s with queue := s.queue ++ [rows.getD s.sent []], sent := s.sent + 1 }
  | closeCh (s : DState) (h1 : s.sent = rows.length) (h2 : ¬s.chClosed) :
      DStep rows cap s { s with chClosed := true }
  | recv (s : DState) (i : Nat) (r : Row) (q' : List Row)
      (hi : i < s.workers.length) (hw : s.workers.getD i .finished = .idle)
      (hq : s.queue = r :: q') :
      DStep rows cap s { s with queue := q', workers := s.workers.set i (.busy r) }
  | complete (s : DState) (i : Nat) (r : Row)
      (hi : i < s.workers.length) (hw : s.workers.getD i .finished = .busy r) :
      DStep rows cap s
        { s with workers := s.workers.set i .idle,
                 processedRows := s.processedRows ++ [r] }
  | exitLoop (s : DState) (i : Nat)
      (hi : i < s.workers.length) (hw : s.workers.getD i .finished = .idle)
      (hc : s.chClosed) (hq : s.queue = []) :
      DStep rows cap s { s with workers := s.workers.set i .finished }

/-- All interleavings of a dispatch run. -/
def DReach (rows : List Row) (cap : Nat) (k : Nat) : DState → Prop :=
  Relation.ReflTransGen (DStep rows cap) (initDState k)

/-- Rows currently held by workers. -/
def busyRows (ws : List WStat) : Multiset Row :=
  ws.foldr (fun st acc => match st with | .busy r => r ::ₘ acc | _ => acc) 0

/-! ### `postRequestWithRetries` (additionalFormAddField.go:36) -/

/-- What one attempt of the retry loop observes: `session.Do` failing, a nil
response, a response whose body cannot be read, or a response with a status
code and a readable body. -/
inductive AttemptOutcome where
  | transFailed
  | nilResponse
  | bodyReadFailed (status : Nat)
  | got (status : Nat) (body : Str)
deriving DecidableEq, Repr

inductive RetryErr where
  | transport
  | nilResp
  | badStatus (code : Nat)
deriving DecidableEq, Repr

/-- The `for i := 0; i < maxRetriesPerRow; i++` loop, carrying `lastErr`.
A body-read failure executes `continue` without touching `lastErr`. -/
def retryLoop (attempts : Nat → AttemptOutcome) :
    Nat → Nat → Option RetryErr → Option Str × Option RetryErr
  | 0, _, lastErr => (none, lastErr)
  | fuel + 1, i, lastErr =>
    match attempts i with
    | .transFailed => retryLoop attempts fuel (i + 1) (some .transport)
    | .nilResponse => retryLoop attempts fuel (i + 1) (some .nilResp)
    | .bodyReadFailed _ => retryLoop attempts fuel (i + 1) lastErr
    | .got code body =>
      if code = 200 then (some body, none)
      else retryLoop attempts fuel (i + 1) (some (.badStatus code))

/-- Direct translation of `postRequestWithRetries` with `maxRetriesPerRow = 3`:
the pair is (body of the returned 200 response, returned error). -/
def postRequestWithRetries (attempts : Nat → AttemptOutcome) :
    Option Str × Option RetryErr :=
  retryLoop attempts 3 0 none

/-! ### Top-level run skeletons (C7) -/

/-- How one dispatched row ends: a conversion error (logged, skipped), a Go
panic from conversion (kills the process), a send failure (logged, skipped),
or a response with a status code. -/
inductive RowOutcome where
  | convFailed
  | convPanicked
  | sendFailed
  | status (code : Nat)
deriving DecidableEq, Repr

inductive RunErr where
  | authFailed
  | dirReadFailed
  | endpointsLoadFailed
  | endpointMissing
  | noCsvFiles
  | stdinReadFailed
  | invalidChoice
  | openFailed
  | csvReadFailed
  | createLogFailed
  | writeFailed
deriving DecidableEq, Repr

/-- A run either returns an `error`/nil to its caller or dies in a panic. -/
inductive RunResult where
  | ret (r : Except RunErr Unit)
  | crashed
deriving Repr

/-- Success/failure of each external action `ProcessAnswerQuestionFromCSVData`
performs before and after dispatch, in source order. -/
structure RunSetup where
  authOk : Bool
  dirOk : Bool
  endpointsOk : Bool
  endpointFound : Bool
  csvFilesFound : Bool
  stdinOk : Bool
  choiceValid : Bool
  openOk : Bool
  csvReadOk : Bool
  recordsNonempty : Bool
  writeOk : Bool
deriving DecidableEq, Repr

def countStatus (rows : List RowOutcome) (code : Nat) : Nat :=
  rows.countP (fun o => match o with | .status n => n = code | _ => false)

/-- Control-flow skeleton of `ProcessAnswerQuestionFromCSVData`
(answerQuestionFromCsv.go:170-282): every early `return fmt.Errorf(...)` in
source order, the `records[0]` panic on an empty CSV, worker panics, then
the status histogram is printed and `writePayloadsToFile`'s result is
returned.  The second component is the printed histogram (`none` when the
run never reaches the summary). -/
def ProcessAnswerQuestionFromCSVData (su : RunSetup) (rows : List RowOutcome) :
    RunResult × Option (Nat → Nat) :=
  if ¬su.authOk then (.ret (.error .authFailed), none)
  else if ¬su.dirOk then (.ret (.error .dirReadFailed), none)
  else if ¬su.endpointsOk then (.ret (.error .endpointsLoadFailed), none)
  else if ¬su.endpointFound then (.ret (.error .endpointMissing), none)
  else if ¬su.csvFilesFound then (.ret (.error .noCsvFiles), none)
  else if ¬su.stdinOk then (.ret (.error .stdinReadFailed), none)
  else if ¬su.choiceValid then (.ret (.error .invalidChoice), none)
  else if ¬su.openOk then (.ret (.error .openFailed), none)
  else if ¬su.csvReadOk then (.ret (.error .csvReadFailed), none)
  else if ¬su.recordsNonempty then (.crashed, none)
  else if rows.any (· = .convPanicked) then (.crashed, none)
  else if ¬su.writeOk then (.ret (.error .writeFailed), some (countStatus rows))
  else (.ret (.ok ()), some (countStatus rows))

/-- Control-flow skeleton of `AddFieldsFromCSV`
(additionalFormAddField.go:202-232): setup failures return early; per-row
failures inside `processFile` are recorded in `Result`s and counted, never
returned; the function ends with `return nil`. -/
def AddFieldsFromCSV (authOk createLogOk openOk csvReadOk recordsNonempty : Bool)
    (rows : List RowOutcome) : RunResult × Option (Nat → Nat) :=
  if ¬authOk then (.ret (.error .authFailed), none)
  else if ¬createLogOk then (.ret (.error .createLogFailed), none)
  else if ¬openOk then (.ret (.error .openFailed), none)
  else if ¬csvReadOk then (.ret (.error .csvReadFailed), none)
  else if ¬recordsNonempty then (.crashed, none)
  else (.ret (.ok ()), some (countStatus rows))

/-! ### `RemoveComments` (src/types/types.go:234) -/

/-- The character-indexed scan of `RemoveComments`, carried over the rest of
the input: `prev` is the character at index `i-1` (including a `/` consumed
by the block-comment close, which advances `i`), the three booleans are
`inString`, `inBlockComment`, `inLineComment`, and `skip` is set exactly when
the previous iteration closed a block comment and did `i++` to consume the
`/`. -/
def removeCommentsGo (prev : Option Char) (inStr inBlock inLine skip : Bool) :
    Str → Str
  | [] => []
  | c :: cs =>
    if skip then removeCommentsGo prev inStr inBlock inLine false cs
    else if c = '"' then
      let inStr' := if ¬inLine ∧ ¬inBlock ∧ prev ≠ some '\\' then !inStr else inStr
      (if ¬inLine ∧ ¬inBlock then [c] else []) ++
        removeCommentsGo (some c) inStr' inBlock inLine false cs
    else if c = '/' then
      if ¬inStr then
        if ¬inLine ∧ ¬inBlock ∧ cs.head? = some '/' then
          removeCommentsGo (some c) inStr inBlock true false cs
        else if ¬inLine ∧ ¬inBlock ∧ cs.head? = some '*' then
          removeCommentsGo (some c) inStr true inLine false cs
        else if ¬inLine ∧ ¬inBlock then
          c :: removeCommentsGo (some c) inStr inBlock inLine false cs
        else removeCommentsGo (some c) inStr inBlock inLine false cs
      else if ¬inLine ∧ ¬inBlock then
        c :: removeCommentsGo (some c) inStr inBlock inLine false cs
      else removeCommentsGo (some c) inStr inBlock inLine false cs
    else if c = '*' then
      if ¬inStr ∧ inBlock ∧ cs.head? = some '/' then
        removeCommentsGo (some '/') inStr false inLine true cs
      else if ¬inLine ∧ ¬inBlock then
        c :: removeCommentsGo (some c) inStr inBlock inLine false cs
      else removeCommentsGo (some c) inStr inBlock inLine false cs
    else if c = '\n' then
      (if ¬inBlock then [c] else []) ++
        removeCommentsGo (some c) inStr inBlock false false cs
    else
      (if ¬inLine ∧ ¬inBlock then [c] else []) ++
        removeCommentsGo (some c) inStr inBlock inLine false cs

/-- The scan of `RemoveComments` from a given state (no pending skip). -/
def removeCommentsAux (prev : Option Char) (inStr inBlock inLine : Bool)
    (s : Str) : Str :=
  removeCommentsGo prev inStr inBlock inLine false s

/-- Direct translation of `RemoveComments` (types.go:234). -/
def RemoveComments (jsonStr : Str) : Str :=
  removeCommentsAux none false false false jsonStr

/-! ### `ModifyPayload` (multiAnswer.go:166) -/

/-- `fmt.Sprintf("{{%s}}", key)`. -/
def placeholderPat (key : Str) : Str :=
  '{' :: '{' :: (key ++ ('}' :: '}' :: []))

/-- Direct translation of `ModifyPayload`: one `strings.ReplaceAll` per
key-value pair of the row, in the given iteration order (Go iterates the
map in an unspecified order). -/
def ModifyPayload (template : Str) (rowData : List (Str × Str)) : Str :=
  rowData.foldl (fun acc kv => replaceAll (placeholderPat kv.1) kv.2 acc) template

/-! #### Segmented templates, for reasoning about `ModifyPayload` -/

/-- A template split into literal text and `\x7b\x7bkey\x7d\x7d` placeholder
occurrences. -/
inductive Seg where
  | text (t : Str)
  | hole (k : Str)
deriving DecidableEq, Repr

def renderSegs : List Seg → Str
  | [] => []
  | .text t :: rest => t ++ renderSegs rest
  | .hole k :: rest => placeholderPat k ++ renderSegs rest

/-- No `\x7b` or `\x7d` among the characters. -/
def braceFree (s : Str) : Prop := ∀ c ∈ s, c ≠ '{' ∧ c ≠ '}'

instance braceFree.instDecidable : DecidablePred braceFree := fun s =>
  decidable_of_iff (∀ c ∈ s, c ≠ '{' ∧ c ≠ '}') Iff.rfl

/-- Per-segment side condition: literal text and key names are brace-free. -/
def segOk : Seg → Prop
  | .text t => braceFree t
  | .hole k => braceFree k

instance segOk.instDecidable : DecidablePred segOk := fun s => by
  cases s with
  | text t => exact (inferInstance : Decidable (braceFree t))
  | hole k => exact (inferInstance : Decidable (braceFree k))

def lookupRow : List (Str × Str) → Str → Option Str
  | [], _ => none
  | (k, v) :: rest, key => if k = key then some v else lookupRow rest key

/-- Substitute one key into a segment list. -/
def fillKey (k v : Str) : Seg → Seg
  | .text t => .text t
  | .hole k' => if k' = k then .text v else .hole k'

/-- Substitute a whole row: matched holes become their values, unmatched
holes stay as literal placeholder text. -/
def fillRow (row : List (Str × Str)) : Seg → Seg
  | .text t => .text t
  | .hole k => match lookupRow row k with | some v => .text v | none => .hole k

/-- Occurrence test: `p` appears as a contiguous run somewhere in `s`. -/
def containsSub (p : Str) : Str → Bool
  | [] => pfx p []
  | c :: cs => pfx p (c :: cs) || containsSub p cs

/-- The empty filesystem (no file reference resolves). -/
def fsEmpty : FileSys := fun _ => none

/-! ## Theorems -/

/-- C3: for a `date`/`date_time` column, `convertSingleValue` first tries the
zero-padded layout `02-01-2006`, then falls back to `2-1-2006`; a success of
either returns the Unix epoch seconds of the parsed midnight-UTC time as a
decimal string, and the result is an error exactly when both layouts fail. -/
theorem C3_convertSingleValue_date_layouts (fs : FileSys) (value dt : Str)
    (hdt : dt = "date".data ∨ dt = "date_time".data) :
    (∀ y m d, goParseDMY true value = some (y, m, d) →
        convertSingleValue fs value dt = .ok (formatInt10 (unixOfDate y m d)))
    ∧ (goParseDMY true value = none →
        ∀ y m d, goParseDMY false value = some (y, m, d) →
          convertSingleValue fs value dt = .ok (formatInt10 (unixOfDate y m d)))
    ∧ ((∃ e, convertSingleValue fs value dt = .error e) ↔
        goParseDMY true value = none ∧ goParseDMY false value = none) := by
  have hcond : (dt = "date".data ∨ dt = "date_time".data) = True := by
    simp [hdt]
  refine ⟨?_, ?_, ?_⟩
  · intro y m d h1
    simp [convertSingleValue, hcond, h1]
  · intro h1 y m d h2
    simp [convertSingleValue, hcond, h1, h2]
  · constructor
    · rintro ⟨e, he⟩
      rcases h1 : goParseDMY true value with _ | ⟨⟨y, m, d⟩⟩
      · rcases h2 : goParseDMY false value with _ | ⟨⟨y, m, d⟩⟩
        · exact ⟨rfl, rfl⟩
        · simp [convertSingleValue, hcond, h1, h2] at he
      · simp [convertSingleValue, hcond, h1] at he
    · rintro ⟨h1, h2⟩
      exact ⟨.parseFailed, by simp [convertSingleValue, hcond, h1, h2]⟩

/-- C3 witness: `"01-02-2024"` parses with the padded layout as 2024-02-01
and coerces to `"1706745600"`. -/
theorem C3_witness :
    goParseDMY true "01-02-2024".data = some (2024, 2, 1)
    ∧ convertSingleValue fsEmpty "01-02-2024".data "date".data
        = .ok (formatInt10 (unixOfDate 2024 2 1))
    ∧ formatInt10 (unixOfDate 2024 2 1) = "1706745600".data :=
  ⟨by decide,
   (C3_convertSingleValue_date_layouts fsEmpty "01-02-2024".data "date".data
      (Or.inl rfl)).1 2024 2 1 (by decide),
   by decide⟩

/-- C6: the code-level behaviour at the claim's failing input.  A header
without the `||` separator makes `convertValue` evaluate `parts[1]` on a
one-element slice, a Go runtime panic (`CErr.panicked`), so the worker loop
dies and the remaining rows are lost — it is not a logged, row-scoped
conversion error.  A date parse failure, by contrast, is logged and skipped
and the run continues, as the claim describes. -/
theorem C6_malformed_header_panics :
    convertValue fsEmpty "x".data "name".data = .error .panicked
    ∧ processRecordsSeq fsEmpty ["case_id".data, "name".data]
        (fun _ => .responded 200)
        [["C1".data, "x".data], ["C2".data, "y".data]] = .error ()
    ∧ processRecordsSeq fsEmpty ["case_id".data, "d||date".data]
        (fun _ => .responded 200)
        [["C1".data, "bad".data], ["C2".data, "01-02-2024".data]]
      = .ok ([.conversionError ["C1".data, "bad".data],
              .responseReceived ["C2".data, "01-02-2024".data] 200],
             [200]) := by
  refine ⟨by decide, by decide, by decide⟩

/-- The run reaches the dispatch phase and its worker join: every external
setup action succeeded, the CSV had at least one record, and no worker hit a
conversion panic. -/
def reachesJoin (su : RunSetup) (rows : List RowOutcome) : Prop :=
  su.authOk ∧ su.dirOk ∧ su.endpointsOk ∧ su.endpointFound ∧ su.csvFilesFound ∧
  su.stdinOk ∧ su.choiceValid ∧ su.openOk ∧ su.csvReadOk ∧ su.recordsNonempty ∧
  ∀ o ∈ rows, o ≠ RowOutcome.convPanicked

/-- C7: a run that completes its worker join returns `nil` unless the final
output-file write fails, no matter how the individual rows fared; the
returned value does not depend on the per-row outcomes at all, while the
printed histogram does; and `AddFieldsFromCSV` likewise returns `nil` on any
mix of per-row results once its setup succeeded. -/
theorem C7_partial_outcome (su : RunSetup) (rows : List RowOutcome)
    (h : reachesJoin su rows) :
    ProcessAnswerQuestionFromCSVData su rows =
      (.ret (if su.writeOk then .ok () else .error .writeFailed),
       some (countStatus rows))
    ∧ (∀ rows2, (∀ o ∈ rows2, o ≠ RowOutcome.convPanicked) →
        (ProcessAnswerQuestionFromCSVData su rows2).1
          = (ProcessAnswerQuestionFromCSVData su rows).1)
    ∧ (∀ rows2 : List RowOutcome,
        AddFieldsFromCSV true true true true true rows2
          = (.ret (.ok ()), some (countStatus rows2))) := by
  obtain ⟨h1, h2, h3, h4, h5, h6, h7, h8, h9, h10, hrows⟩ := h
  have hany : rows.any (· = .convPanicked) = false := by
    simp only [List.any_eq_false, decide_eq_true_eq]
    exact hrows
  refine ⟨?_, ?_, ?_⟩
  · cases hw : su.writeOk <;>
      simp [ProcessAnswerQuestionFromCSVData, h1, h2, h3, h4, h5, h6, h7, h8,
        h9, h10, hany, hw]
  · intro rows2 hrows2
    have hany2 : rows2.any (· = .convPanicked) = false := by
      simp only [List.any_eq_false, decide_eq_true_eq]
      exact hrows2
    cases hw : su.writeOk <;>
      simp [ProcessAnswerQuestionFromCSVData, h1, h2, h3, h4, h5, h6, h7, h8,
        h9, h10, hany, hany2, hw]
  · intro rows2
    simp [AddFieldsFromCSV]

def suAllOk : RunSetup :=
  { authOk := true, dirOk := true, endpointsOk := true, endpointFound := true,
    csvFilesFound := true, stdinOk := true, choiceValid := true, openOk := true,
    csvReadOk := true, recordsNonempty := true, writeOk := true }

def rowsMixed : List RowOutcome :=
  [.status 500, .sendFailed, .convFailed, .status 200, .status 500]

/-- C7 witness: a completed run over rows with statuses 500/200, a send
failure and a conversion error still returns success. -/
theorem C7_witness :
    reachesJoin suAllOk rowsMixed
    ∧ ProcessAnswerQuestionFromCSVData suAllOk rowsMixed
        = (.ret (.ok ()), some (countStatus rowsMixed)) :=
  ⟨by constructor <;> first | rfl | (constructor <;> first | rfl | decide),
   (C7_partial_outcome suAllOk rowsMixed
      (by constructor <;> first | rfl | (constructor <;> first | rfl | decide))).1⟩

/-- The successful-200 view of one attempt: `some body` when the attempt
produced a readable status-200 response. -/
def succBody : AttemptOutcome → Option Str
  | .got code b => if code = 200 then some b else none
  | _ => none

/-- What one attempt contributes to `lastErr` (a body-read failure
contributes nothing: the `continue` skips the assignment). -/
def attemptErr : AttemptOutcome → Option RetryErr
  | .transFailed => some .transport
  | .nilResponse => some .nilResp
  | .bodyReadFailed _ => none
  | .got code _ => some (.badStatus code)

/-- Error accumulation of the retry loop from attempt `i` over `fuel`
further attempts, starting from `le`. -/
def errFrom (f : Nat → AttemptOutcome) : Nat → Nat → Option RetryErr → Option RetryErr
  | _, 0, le => le
  | i, fuel + 1, le =>
    errFrom f (i + 1) fuel
      (match attemptErr (f i) with
       | some e => some e
       | none => le)

/-- The value of `lastErr` after the three attempts are exhausted. -/
def lastRecordedErr (f : Nat → AttemptOutcome) : Option RetryErr :=
  match attemptErr (f 2) with
  | some e => some e
  | none =>
    match attemptErr (f 1) with
    | some e => some e
    | none => attemptErr (f 0)

/-- C5 counterexample: three attempts that each return status 200 with an
unreadable body exhaust the retries, return no body, and leave `lastErr`
nil — the claim's "returns the body of the first attempt that yields status
200" and "the caller records the last error or the last non-200 status" both
fail at this input. -/
theorem C5_retry_lost_error_cex :
    postRequestWithRetries (fun _ => .bodyReadFailed 200) = (none, none) := by
  decide

theorem retryLoop_congr (f g : Nat → AttemptOutcome) :
    ∀ (fuel i : Nat) (le : Option RetryErr),
      (∀ j, i ≤ j → j < i + fuel → f j = g j) →
      retryLoop f fuel i le = retryLoop g fuel i le := by
  intro fuel
  induction fuel with
  | zero => intro i le _; rfl
  | succ m ih =>
    intro i le h
    have hi : f i = g i := h i (Nat.le_refl i) (by omega)
    show retryLoop f (m + 1) i le = retryLoop g (m + 1) i le
    simp only [retryLoop, hi]
    have hrest : ∀ j, i + 1 ≤ j → j < (i + 1) + m → f j = g j := by
      intro j h1 h2
      exact h j (by omega) (by omega)
    cases g i with
    | transFailed => exact ih (i + 1) _ hrest
    | nilResponse => exact ih (i + 1) _ hrest
    | bodyReadFailed st => exact ih (i + 1) _ hrest
    | got code body =>
      by_cases hc : code = 200 <;> simp [hc, ih (i + 1) _ hrest]

/-- C5 amended: the sender makes at most 3 attempts (the result depends only
on attempts 0..2); it retries after a transport error, a nil response, a
body-read failure, or a non-200 status, and returns the body of the first
attempt with a readable status-200 response; when the retries are exhausted
without such a response it returns no body together with the last recorded
error — the `session.Do` error or `unexpected status code` of the most
recent attempt that was not a body-read failure (`none` if every attempt
failed while reading the body, in which case the error is lost). -/
theorem C5_retry_amended :
    (∀ f g : Nat → AttemptOutcome, (∀ i, i < 3 → f i = g i) →
        postRequestWithRetries f = postRequestWithRetries g)
    ∧ (∀ (f : Nat → AttemptOutcome) (i : Nat) (b : Str), i < 3 →
        (∀ j, j < i → succBody (f j) = none) → f i = .got 200 b →
        postRequestWithRetries f = (some b, none))
    ∧ (∀ f : Nat → AttemptOutcome, (∀ i, i < 3 → succBody (f i) = none) →
        postRequestWithRetries f = (none, lastRecordedErr f)) := by
  have hsucc : ∀ (f : Nat → AttemptOutcome) (j : Nat),
      succBody (f j) = none → ∀ b, f j = .got 200 b → False := by
    intro f j hj b hb
    rw [hb] at hj
    simp [succBody] at hj
  refine ⟨?_, ?_, ?_⟩
  · intro f g h
    exact retryLoop_congr f g 3 0 none (fun j _ hj => h j (by omega))
  · intro f i b hi hprev hfi
    interval_cases i
    · show retryLoop f (2 + 1) 0 none = (some b, none)
      simp [retryLoop, hfi]
    · have h0 := hprev 0 (by omega)
      show retryLoop f (2 + 1) 0 none = (some b, none)
      simp only [retryLoop]
      cases hf0 : f 0 with
      | got code0 body0 =>
        rw [hf0] at h0
        simp only [succBody] at h0
        have hc0 : ¬ code0 = 200 := by
          intro hc; rw [hc] at h0; simp at h0
        simp only [hc0, if_false]
        show retryLoop f (1 + 1) 1 _ = (some b, none)
        simp [retryLoop, hfi]
      | transFailed =>
        show retryLoop f (1 + 1) 1 _ = (some b, none)
        simp [retryLoop, hfi]
      | nilResponse =>
        show retryLoop f (1 + 1) 1 _ = (some b, none)
        simp [retryLoop, hfi]
      | bodyReadFailed st =>
        show retryLoop f (1 + 1) 1 _ = (some b, none)
        simp [retryLoop, hfi]
    · have h0 := hprev 0 (by omega)
      have h1 := hprev 1 (by omega)
      show retryLoop f (2 + 1) 0 none = (some b, none)
      simp only [retryLoop]
      have step2 : ∀ le : Option RetryErr, retryLoop f (1 + 1) 1 le = (some b, none) := by
        intro le
        simp only [retryLoop]
        cases hf1 : f 1 with
        | got code1 body1 =>
          rw [hf1] at h1
          simp only [succBody] at h1
          have hc1 : ¬ code1 = 200 := by
            intro hc; rw [hc] at h1; simp at h1
          simp only [hc1, if_false]
          show retryLoop f (0 + 1) 2 _ = (some b, none)
          simp [retryLoop, hfi]
        | transFailed =>
          show retryLoop f (0 + 1) 2 _ = (some b, none)
          simp [retryLoop, hfi]
        | nilResponse =>
          show retryLoop f (0 + 1) 2 _ = (some b, none)
          simp [retryLoop, hfi]
        | bodyReadFailed st =>
          show retryLoop f (0 + 1) 2 _ = (some b, none)
          simp [retryLoop, hfi]
      cases hf0 : f 0 with
      | got code0 body0 =>
        rw [hf0] at h0
        simp only [succBody] at h0
        have hc0 : ¬ code0 = 200 := by
          intro hc; rw [hc] at h0; simp at h0
        simp only [hc0, if_false]
        exact step2 _
      | transFailed => exact step2 _
      | nilResponse => exact step2 _
      | bodyReadFailed st => exact step2 _
  · intro f h
    have main : ∀ (fuel i : Nat) (le : Option RetryErr),
        (∀ j, i ≤ j → j < i + fuel → succBody (f j) = none) →
        retryLoop f fuel i le = (none, errFrom f i fuel le) := by
      intro fuel
      induction fuel with
      | zero => intro i le _; rfl
      | succ m ih =>
        intro i le hnone
        have hrest : ∀ j, i + 1 ≤ j → j < (i + 1) + m → succBody (f j) = none :=
          fun j h1 h2 => hnone j (by omega) (by omega)
        have hi := hnone i (Nat.le_refl i) (by omega)
        show retryLoop f (m + 1) i le = (none, errFrom f i (m + 1) le)
        simp only [retryLoop, errFrom]
        cases hfi : f i with
        | transFailed => simp only [attemptErr]; exact ih (i + 1) _ hrest
        | nilResponse => simp only [attemptErr]; exact ih (i + 1) _ hrest
        | bodyReadFailed st => simp only [attemptErr]; exact ih (i + 1) _ hrest
        | got code body =>
          rw [hfi] at hi
          simp only [succBody] at hi
          have hc : ¬ code = 200 := by
            intro hc; rw [hc] at hi; simp at hi
          simp only [hc, if_false, attemptErr]
          exact ih (i + 1) _ hrest
    have hlast : errFrom f 0 3 none = lastRecordedErr f := by
      show errFrom f 0 (2 + 1) none = lastRecordedErr f
      simp only [errFrom, lastRecordedErr]
      cases attemptErr (f 0) <;> cases attemptErr (f 1) <;>
        cases attemptErr (f 2) <;> rfl
    rw [← hlast]
    exact main 3 0 none (fun j _ hj => h j (by omega))

/-- C5 witness for the amended statement: two transport failures followed by
a readable 200 return that 200's body. -/
theorem C5_witness :
    postRequestWithRetries
        (fun i => if i < 2 then .transFailed else .got 200 "B".data)
      = (some "B".data, none) :=
  (C5_retry_amended).2.1 (fun i => if i < 2 then .transFailed else .got 200 "B".data)
    2 "B".data (by omega) (by intro j hj; interval_cases j <;> rfl) (by rfl)

/-- The input `\/* */"//x"`: stripping once yields `\"//x"` (the block
comment removal leaves a backslash right before the quote), stripping again
treats that quote as escaped and removes `//x"` as a line comment. -/
def rcCex : Str :=
  '\\' :: "/* */".data ++ '"' :: "//x".data ++ ['"']

/-- A single-quoted span containing `//`. -/
def rcCexSingleQuote : Str :=
  '\'' :: "a//b".data ++ '\'' :: ['\n']

/-- C8 counterexample: `RemoveComments` is not idempotent, and it alters
characters inside a single-quoted span (the scanner tracks only double
quotes, so the `//` inside `'a//b'` starts a line comment). -/
theorem C8_removeComments_cex :
    RemoveComments (RemoveComments rcCex) ≠ RemoveComments rcCex
    ∧ RemoveComments rcCexSingleQuote = '\'' :: 'a' :: ['\n'] := by
  refine ⟨by decide, by decide⟩

/-- Template `\x7b\x7ba\x7d\x7d` with row `a ↦ \x7b\x7bb\x7d\x7d, b ↦ X`. -/
def mpCexTemplate : Str := placeholderPat "a".data

def mpCexRow1 : List (Str × Str) :=
  [("a".data, placeholderPat "b".data), ("b".data, "X".data)]

/-- C9 counterexample: header `b`, whose placeholder does not occur in the
template, still changes the output (iterating `a` first rewrites the
template to `\x7b\x7bb\x7d\x7d`, which the `b` pass then rewrites to `X`),
so "a header whose placeholder does not occur in the template has no
effect" fails, and the `a` occurrence is not replaced by `a`'s raw value. -/
theorem C9_modifyPayload_cex :
    containsSub (placeholderPat "b".data) mpCexTemplate = false
    ∧ ModifyPayload mpCexTemplate mpCexRow1 = "X".data
    ∧ ModifyPayload mpCexTemplate [("a".data, placeholderPat "b".data)]
        = placeholderPat "b".data
    ∧ ModifyPayload mpCexTemplate mpCexRow1
        ≠ ModifyPayload mpCexTemplate [("a".data, placeholderPat "b".data)] := by
  refine ⟨by decide, by decide, by decide, by decide⟩

/-- Template `x\x7b\x7b\x7b\x7ba\x7d\x7d\x7d\x7dy` (a placeholder nested in
one more pair of braces) and a row with brace-free values. -/
def mpOrderTemplate : Str :=
  'x' :: '{' :: '{' :: (placeholderPat "a".data ++ ('}' :: '}' :: ['y']))

def mpOrderRowAB : List (Str × Str) := [("a".data, "b".data), ("b".data, "Z".data)]

def mpOrderRowBA : List (Str × Str) := [("b".data, "Z".data), ("a".data, "b".data)]

/-- C10 counterexample: two iteration orders over the same row give
different outputs (`xZy` vs `x\x7b\x7bb\x7d\x7dy`): substituting `a` first
manufactures a `\x7b\x7bb\x7d\x7d` occurrence that the later `b` pass
rewrites, while the opposite order leaves it. -/
theorem C10_order_dependent_cex :
    ModifyPayload mpOrderTemplate mpOrderRowAB = "xZy".data
    ∧ ModifyPayload mpOrderTemplate mpOrderRowBA
        = ('x' :: placeholderPat "b".data) ++ ['y']
    ∧ ModifyPayload mpOrderTemplate mpOrderRowAB
        ≠ ModifyPayload mpOrderTemplate mpOrderRowBA := by
  refine ⟨by decide, by decide, by decide⟩

theorem getD_drop_one (l : List Str) (i : Nat) (d : Str) :
    (l.drop 1).getD i d = l.getD (i + 1) d := by
  cases l <;> simp [List.getD]

theorem buildAnswers_spec (fs : FileSys) :
    ∀ (vs hs : List Str) (answers : List Answer),
      buildAnswers fs vs hs = .ok answers →
      answers.length = vs.length ∧
      ∀ i, i < vs.length →
        ∃ cv, convertValue fs (vs.getD i []) (hs.getD i []) = .ok cv ∧
          answers.getD i ⟨[], [], []⟩ =
            ⟨getFieldName (hs.getD i []), cv, "customer".data⟩ := by
  intro vs
  induction vs with
  | nil =>
    intro hs answers h
    simp only [buildAnswers] at h
    cases h
    exact ⟨rfl, fun i hi => by simp at hi⟩
  | cons v vs ih =>
    intro hs answers h
    cases hs with
    | nil =>
      simp only [buildAnswers] at h
      exact Except.noConfusion h
    | cons hd hs =>
      simp only [buildAnswers] at h
      cases hcv : convertValue fs v hd with
      | error e => rw [hcv] at h; exact Except.noConfusion h
      | ok cv =>
        rw [hcv] at h
        cases hrest : buildAnswers fs vs hs with
        | error e => rw [hrest] at h; exact Except.noConfusion h
        | ok rest =>
          rw [hrest] at h
          simp only [Except.ok.injEq] at h
          obtain ⟨hlen, hidx⟩ := ih hs rest hrest
          subst h
          refine ⟨by simp [hlen], ?_⟩
          intro i hi
          cases i with
          | zero => exact ⟨cv, by simpa [List.getD] using hcv, by simp [List.getD]⟩
          | succ j =>
            have hj : j < vs.length := by simpa using hi
            obtain ⟨cv', h1, h2⟩ := hidx j hj
            exact ⟨cv', by simpa [List.getD] using h1, by simpa [List.getD] using h2⟩

/-- C1: a successful `convertRecordToJSON` produces `case_id = record[0]`,
`is_question_mode = false`, and one answer per column after column 0 in
header order, each with the header's pre-`||` name as `field_name`, the
coerced cell as `field_value`, and `source = "customer"`. -/
theorem C1_convertRecordToJSON_shape (fs : FileSys) (record headers : List Str)
    (p : AnswerPayload) (hok : convertRecordToJSON fs record headers = .ok p) :
    ∃ r0 rest, record = r0 :: rest
      ∧ p.case_id = r0
      ∧ p.is_question_mode = false
      ∧ p.answers.length = rest.length
      ∧ ∀ i, i < rest.length →
          ∃ cv, convertValue fs (rest.getD i []) (headers.getD (i + 1) []) = .ok cv
            ∧ p.answers.getD i ⟨[], [], []⟩
                = ⟨getFieldName (headers.getD (i + 1) []), cv, "customer".data⟩ := by
  cases record with
  | nil => simp [convertRecordToJSON] at hok
  | cons r0 rest =>
    refine ⟨r0, rest, rfl, ?_⟩
    simp only [convertRecordToJSON] at hok
    cases hba : buildAnswers fs rest (headers.drop 1) with
    | error e => rw [hba] at hok; exact Except.noConfusion hok
    | ok answers =>
      rw [hba] at hok
      simp only [Except.ok.injEq] at hok
      obtain ⟨hlen, hidx⟩ := buildAnswers_spec fs rest (headers.drop 1) answers hba
      subst hok
      refine ⟨rfl, rfl, hlen, ?_⟩
      intro i hi
      obtain ⟨cv, h1, h2⟩ := hidx i hi
      rw [getD_drop_one] at h1 h2
      exact ⟨cv, h1, h2⟩

def exHeaders : List Str := ["case_id".data, "name||text".data, "dob||date".data]

def exRecord : List Str := ["C1".data, "Alice".data, "01-02-2024".data]

def exPayload : AnswerPayload :=
  { case_id := "C1".data, is_question_mode := false,
    answers := [⟨"name".data, "Alice".data, "customer".data⟩,
                ⟨"dob".data, "1706745600".data, "customer".data⟩] }

/-- C1 witness: the spec's end-to-end scenario, with `1706745600` the epoch
seconds of 2024-02-01T00:00:00Z. -/
theorem C1_witness :
    convertRecordToJSON fsEmpty exRecord exHeaders = .ok exPayload
    ∧ ∃ r0 rest, exRecord = r0 :: rest
      ∧ exPayload.case_id = r0
      ∧ exPayload.is_question_mode = false
      ∧ exPayload.answers.length = rest.length
      ∧ ∀ i, i < rest.length →
          ∃ cv, convertValue fsEmpty (rest.getD i []) (exHeaders.getD (i + 1) []) = .ok cv
            ∧ exPayload.answers.getD i ⟨[], [], []⟩
                = ⟨getFieldName (exHeaders.getD (i + 1) []), cv, "customer".data⟩ :=
  ⟨by decide,
   C1_convertRecordToJSON_shape fsEmpty exRecord exHeaders exPayload (by decide)⟩

theorem hexDigit_ne (n : Nat) : hexDigit n ≠ '"' ∧ hexDigit n ≠ '\\' := by
  unfold hexDigit
  rcases Nat.lt_or_ge n 16 with h | h
  · interval_cases n <;> exact ⟨by decide, by decide⟩
  · rw [List.getD_eq_default]
    · exact ⟨by decide, by decide⟩
    · simpa using h

theorem skipStringBody_other {c : Char} (rest : Str) (h1 : c ≠ '"')
    (h2 : c ≠ '\\') : skipStringBody (c :: rest) = skipStringBody rest := by
  simp [skipStringBody, h1, h2]

theorem skipStringBody_escape (x : Str) :
    ∀ rest : Str, skipStringBody (goJsonEscape x ++ ('"' :: rest)) = some rest := by
  induction x with
  | nil => intro rest; simp [goJsonEscape, skipStringBody]
  | cons c x ih =>
    intro rest
    have hstep : goJsonEscape (c :: x) ++ ('"' :: rest)
        = goJsonEscapeChar c ++ (goJsonEscape x ++ ('"' :: rest)) := by
      simp [goJsonEscape]
    rw [hstep]
    unfold goJsonEscapeChar
    split_ifs with h1 h2 h3 h4 h5 h6 h7 h8
    · subst h1; simp only [List.cons_append, List.nil_append]
      rw [show skipStringBody ('\\' :: '"' :: (goJsonEscape x ++ ('"' :: rest)))
            = skipStringBody (goJsonEscape x ++ ('"' :: rest)) from by
        simp [skipStringBody]]
      exact ih rest
    · subst h2; simp only [List.cons_append, List.nil_append]
      rw [show skipStringBody ('\\' :: '\\' :: (goJsonEscape x ++ ('"' :: rest)))
            = skipStringBody (goJsonEscape x ++ ('"' :: rest)) from by
        simp [skipStringBody]]
      exact ih rest
    · simp only [List.cons_append, List.nil_append]
      rw [show skipStringBody ('\\' :: 'n' :: (goJsonEscape x ++ ('"' :: rest)))
            = skipStringBody (goJsonEscape x ++ ('"' :: rest)) from by
        simp [skipStringBody]]
      exact ih rest
    · simp only [List.cons_append, List.nil_append]
      rw [show skipStringBody ('\\' :: 'r' :: (goJsonEscape x ++ ('"' :: rest)))
            = skipStringBody (goJsonEscape x ++ ('"' :: rest)) from by
        simp [skipStringBody]]
      exact ih rest
    · simp only [List.cons_append, List.nil_append]
      rw [show skipStringBody ('\\' :: 't' :: (goJsonEscape x ++ ('"' :: rest)))
            = skipStringBody (goJsonEscape x ++ ('"' :: rest)) from by
        simp [skipStringBody]]
      exact ih rest
    · simp only [List.cons_append, List.nil_append]
      rw [show skipStringBody
              ('\\' :: 'u' :: '0' :: '0' :: hexDigit (c.toNat / 16) ::
                hexDigit (c.toNat % 16) :: (goJsonEscape x ++ ('"' :: rest)))
            = skipStringBody
                (hexDigit (c.toNat / 16) :: hexDigit (c.toNat % 16) ::
                  (goJsonEscape x ++ ('"' :: rest))) from by
        simp [skipStringBody]]
      rw [skipStringBody_other _ (hexDigit_ne _).1 (hexDigit_ne _).2,
        skipStringBody_other _ (hexDigit_ne _).1 (hexDigit_ne _).2]
      exact ih rest
    · simp only [List.cons_append, List.nil_append]
      rw [show skipStringBody
              ('\\' :: 'u' :: '0' :: '0' :: hexDigit (c.toNat / 16) ::
                hexDigit (c.toNat % 16) :: (goJsonEscape x ++ ('"' :: rest)))
            = skipStringBody
                (hexDigit (c.toNat / 16) :: hexDigit (c.toNat % 16) ::
                  (goJsonEscape x ++ ('"' :: rest))) from by
        simp [skipStringBody]]
      rw [skipStringBody_other _ (hexDigit_ne _).1 (hexDigit_ne _).2,
        skipStringBody_other _ (hexDigit_ne _).1 (hexDigit_ne _).2]
      exact ih rest
    · simp only [List.cons_append, List.nil_append]
      rw [show skipStringBody
              ('\\' :: 'u' :: '2' :: '0' :: '2' :: hexDigit (c.toNat % 16) ::
                (goJsonEscape x ++ ('"' :: rest)))
            = skipStringBody
                (hexDigit (c.toNat % 16) :: (goJsonEscape x ++ ('"' :: rest))) from by
        simp [skipStringBody]]
      rw [skipStringBody_other _ (hexDigit_ne _).1 (hexDigit_ne _).2]
      exact ih rest
    · simp only [List.cons_append, List.nil_append]
      rw [skipStringBody_other _ h1 h2]
      exact ih rest

theorem jsonElems_length_ge : ∀ xs : List Str, xs ≠ [] → xs.length ≤ (jsonElems xs).length := by
  intro xs
  induction xs with
  | nil => intro h; exact absurd rfl h
  | cons x xs ih =>
    intro _
    cases xs with
    | nil => simp [jsonElems, jsonQuoted]
    | cons y ys =>
      have hih := ih (by simp)
      simp only [List.length_cons] at hih
      simp only [jsonElems, jsonQuoted, List.length_append, List.length_cons]
      omega

theorem countArrayTail_jsonElems :
    ∀ (xs : List Str) (fuel : Nat), xs ≠ [] → xs.length ≤ fuel →
      countArrayTail fuel (jsonElems xs ++ [']']) = some xs.length := by
  intro xs
  induction xs with
  | nil => intro fuel h; exact absurd rfl h
  | cons x xs ih =>
    intro fuel _ hfuel
    obtain ⟨f, rfl⟩ : ∃ f, fuel = f + 1 := by
      cases fuel
      · simp at hfuel
      · exact ⟨_, rfl⟩
    cases xs with
    | nil =>
      have hshape : jsonElems [x] ++ [']']
          = '"' :: (goJsonEscape x ++ ('"' :: [']'])) := by
        simp [jsonElems, jsonQuoted]
      rw [hshape]
      simp only [countArrayTail, skipStringBody_escape x [']']]
      simp
    | cons y ys =>
      have hshape : jsonElems (x :: y :: ys) ++ [']']
          = '"' :: (goJsonEscape x ++ ('"' :: (',' :: (jsonElems (y :: ys) ++ [']'])))) := by
        simp [jsonElems, jsonQuoted]
      rw [hshape]
      simp only [countArrayTail, skipStringBody_escape x]
      rw [ih f (by simp) (by simpa using Nat.le_of_succ_le_succ hfuel)]
      simp

/-- The marshaller emits a JSON array with exactly one element per input
string. -/
theorem specCount_marshal (xs : List Str) :
    specCountArrayElems (jsonMarshalStringList xs) = some xs.length := by
  cases xs with
  | nil => decide
  | cons x xs =>
    have hne : jsonElems (x :: xs) ++ [']'] ≠ [']'] := by
      intro h
      have h1 : ((jsonElems (x :: xs)) ++ [']']).length = 1 := by rw [h]; rfl
      have h2 : 1 ≤ (jsonElems (x :: xs)).length :=
        le_trans (by simp) (jsonElems_length_ge (x :: xs) (by simp))
      simp only [List.length_append, List.length_cons, List.length_nil] at h1
      omega
    have hlen : (x :: xs).length ≤ (jsonElems (x :: xs) ++ [']']).length := by
      have hih := jsonElems_length_ge (x :: xs) (by simp)
      simp only [List.length_cons] at hih
      simp only [List.length_append, List.length_cons, List.length_nil]
      omega
    simp only [jsonMarshalStringList, specCountArrayElems, if_neg hne]
    exact countArrayTail_jsonElems (x :: xs) _ (by simp) hlen

theorem convertEach_ok_length (fs : FileSys) (dt : Str) :
    ∀ (vs ys : List Str), convertEach fs dt vs = .ok ys → ys.length = vs.length := by
  intro vs
  induction vs with
  | nil => intro ys h; simp only [convertEach] at h; cases h; rfl
  | cons v vs ih =>
    intro ys h
    simp only [convertEach] at h
    cases hcv : convertSingleValue fs v dt with
    | error e => rw [hcv] at h; exact Except.noConfusion h
    | ok s =>
      rw [hcv] at h
      cases hrest : convertEach fs dt vs with
      | error e => rw [hrest] at h; exact Except.noConfusion h
      | ok rest =>
        rw [hrest] at h
        simp only [Except.ok.injEq] at h
        subst h
        simp [ih rest hrest]

theorem convertEach_error_first (fs : FileSys) (dt : Str) :
    ∀ (vs : List Str) (e : CErr), convertEach fs dt vs = .error e →
      ∃ k, k < vs.length ∧ convertSingleValue fs (vs.getD k []) dt = .error e ∧
        ∀ j, j < k → ∃ s, convertSingleValue fs (vs.getD j []) dt = .ok s := by
  intro vs
  induction vs with
  | nil => intro e h; simp only [convertEach] at h; exact Except.noConfusion h
  | cons v vs ih =>
    intro e h
    simp only [convertEach] at h
    cases hcv : convertSingleValue fs v dt with
    | error e0 =>
      rw [hcv] at h
      cases h
      exact ⟨0, by simp, by simpa [List.getD] using hcv, fun j hj => by omega⟩
    | ok s =>
      rw [hcv] at h
      cases hrest : convertEach fs dt vs with
      | error e0 =>
        rw [hrest] at h
        cases h
        obtain ⟨k, hk, hke, hkprev⟩ := ih e hrest
        refine ⟨k + 1, by simpa using hk, by simpa [List.getD] using hke, ?_⟩
        intro j hj
        cases j with
        | zero => exact ⟨s, by simpa [List.getD] using hcv⟩
        | succ j0 =>
          obtain ⟨s', hs'⟩ := hkprev j0 (by omega)
          exact ⟨s', by simpa [List.getD] using hs'⟩
      | ok rest => rw [hrest] at h; exact Except.noConfusion h

/-- C4: on a `MULTI` column, `convertValue` splits the cell on `\`, coerces
the sub-values left to right, stops at the first failing sub-value and
returns its error, and on success marshals the coerced list into a valid
JSON array with exactly one element per backslash-delimited sub-value. -/
theorem C4_convertValue_multi (fs : FileSys) (value header : Str)
    (hlen : 2 < (splitOnSep ('|' :: '|' :: []) header).length)
    (hmulti : (splitOnSep ('|' :: '|' :: []) header).getD 2 [] = "MULTI".data) :
    (∀ ys, convertEach fs ((splitOnSep ('|' :: '|' :: []) header).getD 1 [])
        (splitOnSep ['\\'] value) = .ok ys →
      convertValue fs value header = .ok (jsonMarshalStringList ys)
      ∧ ys.length = (splitOnSep ['\\'] value).length
      ∧ specCountArrayElems (jsonMarshalStringList ys)
          = some (splitOnSep ['\\'] value).length)
    ∧ (∀ e, convertEach fs ((splitOnSep ('|' :: '|' :: []) header).getD 1 [])
        (splitOnSep ['\\'] value) = .error e →
      convertValue fs value header = .error e
      ∧ ∃ k, k < (splitOnSep ['\\'] value).length
          ∧ convertSingleValue fs ((splitOnSep ['\\'] value).getD k [])
              ((splitOnSep ('|' :: '|' :: []) header).getD 1 []) = .error e
          ∧ ∀ j, j < k →
              ∃ s, convertSingleValue fs ((splitOnSep ['\\'] value).getD j [])
                ((splitOnSep ('|' :: '|' :: []) header).getD 1 []) = .ok s) := by
  have hnotlt : ¬ (splitOnSep ('|' :: '|' :: []) header).length < 2 := by omega
  constructor
  · intro ys hok
    have hlenys := convertEach_ok_length fs _ _ ys hok
    refine ⟨?_, hlenys, by rw [specCount_marshal, hlenys]⟩
    simp only [convertValue, if_neg hnotlt, if_pos (And.intro hlen hmulti), hok]
  · intro e herr
    refine ⟨?_, convertEach_error_first fs _ _ e herr⟩
    simp only [convertValue, if_neg hnotlt, if_pos (And.intro hlen hmulti), herr]

/-- C4 witness: header `tags||date||MULTI` with cell `01-02-2024\1-3-2024`
splits into two sub-values, both coerce, and the result is a two-element
JSON array. -/
theorem C4_witness :
    convertEach fsEmpty "date".data (splitOnSep ['\\'] ('0' :: "1-02-2024".data ++ '\\' :: "1-3-2024".data))
        = .ok ["1706745600".data, "1709251200".data]
    ∧ convertValue fsEmpty ('0' :: "1-02-2024".data ++ '\\' :: "1-3-2024".data)
        "tags||date||MULTI".data
        = .ok (jsonMarshalStringList ["1706745600".data, "1709251200".data])
    ∧ specCountArrayElems
        (jsonMarshalStringList ["1706745600".data, "1709251200".data]) = some 2 := by
  have h := C4_convertValue_multi fsEmpty
    ('0' :: "1-02-2024".data ++ '\\' :: "1-3-2024".data) "tags||date||MULTI".data
    (by decide) (by decide)
  have hok := (h.1 ["1706745600".data, "1709251200".data] (by decide))
  exact ⟨by decide, hok.1, hok.2.2⟩

/-! #### `replaceAll` over segmented templates (C9/C10) -/

theorem pfx_append_self (p s : Str) : pfx p (p ++ s) = true := by
  induction p with
  | nil => rfl
  | cons a as ih => simp [pfx, ih]

theorem pfx_cons_same (a : Char) (as bs : Str) :
    pfx (a :: as) (a :: bs) = pfx as bs := by
  simp [pfx]

theorem pfx_cons_ne {a b : Char} (as bs : Str) (h : a ≠ b) :
    pfx (a :: as) (b :: bs) = false := by
  simp [pfx, h]

theorem pfx_pat_of_head_ne {k : Str} {c : Char} (rest : Str) (h : c ≠ '{') :
    pfx (placeholderPat k) (c :: rest) = false := by
  rw [show placeholderPat k = '{' :: ('{' :: (k ++ ('}' :: '}' :: []))) from rfl]
  exact pfx_cons_ne _ _ (fun he => h he.symm)

theorem replaceAll_nil (p v : Str) : replaceAll p v [] = [] := rfl

theorem replaceAll_skip_text (k v t : Str) (ht : braceFree t) :
    ∀ s, replaceAll (placeholderPat k) v (t ++ s)
      = t ++ replaceAll (placeholderPat k) v s := by
  induction t with
  | nil => intro s; simp
  | cons c t ih =>
    intro s
    have hc : c ≠ '{' := (ht c (by simp)).1
    have ht' : braceFree t := fun x hx => ht x (by simp [hx])
    rw [List.cons_append, replaceAll_cons,
      if_neg (by simp [pfx_pat_of_head_ne _ hc]), ih ht' s]
    rfl

theorem replaceAll_pat_head (k v s : Str) :
    replaceAll (placeholderPat k) v (placeholderPat k ++ s)
      = v ++ replaceAll (placeholderPat k) v s := by
  have hnil : (placeholderPat k : Str) ≠ [] := by simp [placeholderPat]
  have hshape : placeholderPat k ++ s
      = '{' :: (('{' :: (k ++ ('}' :: '}' :: []))) ++ s) := by
    simp [placeholderPat]
  have hpfx : pfx (placeholderPat k)
      ('{' :: (('{' :: (k ++ ('}' :: '}' :: []))) ++ s)) = true := by
    rw [← hshape]
    exact pfx_append_self _ _
  rw [hshape, replaceAll_cons, if_pos ⟨hnil, hpfx⟩]
  have hdrop : (('{' :: (k ++ ('}' :: '}' :: []))) ++ s).drop
      ((placeholderPat k).length - 1) = s := by
    rw [show (placeholderPat k).length - 1
          = ('{' :: (k ++ ('}' :: '}' :: []))).length from by
        simp [placeholderPat]]
    exact List.drop_left _ _
  rw [hdrop]

theorem pfx_key_tail :
    ∀ (k k' s : Str), braceFree k → braceFree k' → k ≠ k' →
      pfx (k ++ ('}' :: '}' :: [])) ((k' ++ ('}' :: '}' :: [])) ++ s) = false := by
  intro k
  induction k with
  | nil =>
    intro k' s _ hk' hne
    cases k' with
    | nil => exact absurd rfl hne
    | cons c k'' =>
      have hc : c ≠ '}' := (hk' c (by simp)).2
      simp only [List.nil_append, List.cons_append, pfx, Bool.and_eq_false_iff]
      left
      simpa using fun he => hc he.symm
  | cons a k1 ih =>
    intro k' s hk hk' hne
    have ha : a ≠ '}' := (hk a (by simp)).2
    cases k' with
    | nil =>
      simp only [List.nil_append, List.cons_append, pfx, Bool.and_eq_false_iff]
      left
      simpa using ha
    | cons c k1' =>
      simp only [List.cons_append, pfx, Bool.and_eq_false_iff]
      by_cases hac : a = c
      · right
        subst hac
        exact ih k1' s (fun x hx => hk x (by simp [hx]))
          (fun x hx => hk' x (by simp [hx]))
          (fun he => hne (by rw [he]))
      · left
        simpa using hac

theorem pfx_pat_pat_ne (k k' s : Str) (hk : braceFree k) (hk' : braceFree k')
    (hne : k' ≠ k) : pfx (placeholderPat k) (placeholderPat k' ++ s) = false := by
  have hkey := pfx_key_tail k k' s hk hk' (fun he => hne (Eq.symm he))
  rw [show placeholderPat k = '{' :: ('{' :: (k ++ ('}' :: '}' :: []))) from rfl,
    show placeholderPat k' ++ s
        = '{' :: ('{' :: ((k' ++ ('}' :: '}' :: [])) ++ s)) from by
      simp [placeholderPat],
    pfx_cons_same, pfx_cons_same]
  exact hkey

theorem pfx_pat_mid (k k' : Str) (s : Str) (hk' : braceFree k') :
    pfx (placeholderPat k) ('{' :: ((k' ++ ('}' :: '}' :: [])) ++ s)) = false := by
  rw [show placeholderPat k = '{' :: ('{' :: (k ++ ('}' :: '}' :: []))) from rfl,
    pfx_cons_same]
  cases k' with
  | nil => exact pfx_cons_ne _ _ (by decide)
  | cons c k'' =>
    have hc : c ≠ '{' := (hk' c (by simp)).1
    exact pfx_cons_ne _ _ (fun he => hc (Eq.symm he))

theorem replaceAll_pat_other (k k' v s : Str) (hk : braceFree k)
    (hk' : braceFree k') (hne : k' ≠ k) :
    replaceAll (placeholderPat k) v (placeholderPat k' ++ s)
      = placeholderPat k' ++ replaceAll (placeholderPat k) v s := by
  have h0 : placeholderPat k' ++ s
      = '{' :: ('{' :: ((k' ++ ('}' :: '}' :: [])) ++ s)) := by
    simp [placeholderPat]
  have hfirst : ¬ ((placeholderPat k : Str) ≠ [] ∧
      pfx (placeholderPat k) ('{' :: ('{' :: ((k' ++ ('}' :: '}' :: [])) ++ s))) = true) := by
    rw [← h0, pfx_pat_pat_ne k k' s hk hk' hne]
    simp
  have hsecond : ¬ ((placeholderPat k : Str) ≠ [] ∧
      pfx (placeholderPat k) ('{' :: ((k' ++ ('}' :: '}' :: [])) ++ s)) = true) := by
    rw [pfx_pat_mid k k' s hk']
    simp
  rw [h0, replaceAll_cons, if_neg hfirst, replaceAll_cons, if_neg hsecond,
    List.append_assoc, replaceAll_skip_text k v k' hk']
  rw [show ('}' :: '}' :: []) ++ s = '}' :: ('}' :: s) from rfl]
  rw [replaceAll_cons,
    if_neg (by rw [pfx_pat_of_head_ne _ (by decide : ('}' : Char) ≠ '{')]; simp),
    replaceAll_cons,
    if_neg (by rw [pfx_pat_of_head_ne _ (by decide : ('}' : Char) ≠ '{')]; simp)]
  simp [placeholderPat]

theorem replaceAll_render (k v : Str) (hk : braceFree k) :
    ∀ segs : List Seg, (∀ t, Seg.text t ∈ segs → braceFree t) →
      (∀ k', Seg.hole k' ∈ segs → braceFree k') →
      replaceAll (placeholderPat k) v (renderSegs segs)
        = renderSegs (segs.map (fillKey k v)) := by
  intro segs
  induction segs with
  | nil => intro _ _; rfl
  | cons seg rest ih =>
    intro hT hH
    have hTr : ∀ t, Seg.text t ∈ rest → braceFree t :=
      fun t ht => hT t (by simp [ht])
    have hHr : ∀ k', Seg.hole k' ∈ rest → braceFree k' :=
      fun k' hkk => hH k' (by simp [hkk])
    cases seg with
    | text t =>
      have ht : braceFree t := hT t (by simp)
      simp only [renderSegs, List.map_cons, fillKey]
      rw [replaceAll_skip_text k v t ht, ih hTr hHr]
    | hole k' =>
      by_cases hkk : k' = k
      · subst hkk
        simp only [renderSegs, List.map_cons, fillKey, if_pos rfl]
        rw [replaceAll_pat_head, ih hTr hHr]
      · have hk' : braceFree k' := hH k' (by simp)
        simp only [renderSegs, List.map_cons, fillKey, if_neg hkk]
        rw [replaceAll_pat_other k k' v _ hk hk' hkk, ih hTr hHr]

theorem fillRow_nil (seg : Seg) : fillRow [] seg = seg := by
  cases seg <;> simp [fillRow, lookupRow]

theorem ModifyPayload_render :
    ∀ (row : List (Str × Str)) (segs : List Seg),
      (∀ kv ∈ row, braceFree kv.1) → (∀ kv ∈ row, braceFree kv.2) →
      (∀ t, Seg.text t ∈ segs → braceFree t) →
      (∀ k', Seg.hole k' ∈ segs → braceFree k') →
      ModifyPayload (renderSegs segs) row = renderSegs (segs.map (fillRow row)) := by
  intro row
  induction row with
  | nil =>
    intro segs _ _ _ _
    have hmap : segs.map (fillRow []) = segs.map id :=
      List.map_congr_left (fun seg _ => fillRow_nil seg)
    rw [hmap, List.map_id]
    rfl
  | cons kv row ih =>
    intro segs hkeys hvals hT hH
    obtain ⟨k, v⟩ := kv
    have hk : braceFree k := hkeys (k, v) (by simp)
    have hv : braceFree v := hvals (k, v) (by simp)
    have step : ModifyPayload (renderSegs segs) ((k, v) :: row)
        = ModifyPayload (replaceAll (placeholderPat k) v (renderSegs segs)) row := rfl
    rw [step, replaceAll_render k v hk segs hT hH]
    have hT' : ∀ t, Seg.text t ∈ segs.map (fillKey k v) → braceFree t := by
      intro t ht
      obtain ⟨seg, hseg, hfill⟩ := List.mem_map.mp ht
      cases seg with
      | text t0 =>
        rw [show fillKey k v (Seg.text t0) = Seg.text t0 from rfl] at hfill
        cases hfill
        exact hT _ hseg
      | hole k0 =>
        by_cases hk0 : k0 = k
        · rw [show fillKey k v (Seg.hole k0) = Seg.text v from by
            simp [fillKey, hk0]] at hfill
          cases hfill
          exact hv
        · rw [show fillKey k v (Seg.hole k0) = Seg.hole k0 from by
            simp [fillKey, hk0]] at hfill
          exact Seg.noConfusion hfill
    have hH' : ∀ k', Seg.hole k' ∈ segs.map (fillKey k v) → braceFree k' := by
      intro k' hk'
      obtain ⟨seg, hseg, hfill⟩ := List.mem_map.mp hk'
      cases seg with
      | text t0 =>
        rw [show fillKey k v (Seg.text t0) = Seg.text t0 from rfl] at hfill
        exact Seg.noConfusion hfill
      | hole k0 =>
        by_cases hk0 : k0 = k
        · rw [show fillKey k v (Seg.hole k0) = Seg.text v from by
            simp [fillKey, hk0]] at hfill
          exact Seg.noConfusion hfill
        · rw [show fillKey k v (Seg.hole k0) = Seg.hole k0 from by
            simp [fillKey, hk0]] at hfill
          cases hfill
          exact hH _ hseg
    rw [ih (segs.map (fillKey k v))
      (fun kv h => hkeys kv (by simp [h])) (fun kv h => hvals kv (by simp [h]))
      hT' hH']
    rw [List.map_map]
    congr 1
    apply List.map_congr_left
    intro seg _
    cases seg with
    | text t0 => rfl
    | hole k0 =>
      show fillRow row (fillKey k v (Seg.hole k0)) = fillRow ((k, v) :: row) (Seg.hole k0)
      by_cases hk0 : k0 = k
      · subst hk0
        simp [fillKey, fillRow, lookupRow]
      · have hkk : ¬ (k = k0) := fun he => hk0 (Eq.symm he)
        simp only [fillKey, if_neg hk0, fillRow, lookupRow, if_neg hkk]

/-- The spec's end-to-end template `\x7b"id":"\x7b\x7bcase_id\x7d\x7d"\x7d`. -/
def exTemplate9 : Str :=
  '{' :: ("\"id\":\"".data ++ placeholderPat "case_id".data ++ ('"' :: ['}']))

def exOut9 : Str := '{' :: ("\"id\":\"C9\"".data ++ ['}'])

/-- C9 amended: on a template that alternates brace-free literal text with
exact `\x7b\x7bkey\x7d\x7d` placeholders, where keys and row values are
brace-free, `ModifyPayload` replaces every placeholder occurrence whose key
the row maps with that key's raw value, leaves unmatched placeholders as
literal text, and rows' extra headers have no effect; the spec's concrete
scenario (whose literal text contains single braces) is verified directly. -/
theorem C9_modifyPayload_amended :
    (∀ (segs : List Seg) (row : List (Str × Str)),
      (∀ kv ∈ row, braceFree kv.1) → (∀ kv ∈ row, braceFree kv.2) →
      (∀ t, Seg.text t ∈ segs → braceFree t) →
      (∀ k', Seg.hole k' ∈ segs → braceFree k') →
      ModifyPayload (renderSegs segs) row = renderSegs (segs.map (fillRow row)))
    ∧ ModifyPayload exTemplate9 [("case_id".data, "C9".data)] = exOut9 :=
  ⟨fun segs row h1 h2 h3 h4 => ModifyPayload_render row segs h1 h2 h3 h4,
   by decide⟩

/-- Unpack a decidable bounded check into the two side conditions used by
the segment lemmas. -/
theorem segsSideConds (segs : List Seg) (h : ∀ s ∈ segs, segOk s) :
    (∀ t, Seg.text t ∈ segs → braceFree t)
    ∧ (∀ k, Seg.hole k ∈ segs → braceFree k) :=
  ⟨fun _ ht => h _ ht, fun _ hk => h _ hk⟩

def wSegs9 : List Seg :=
  [.text "id=".data, .hole "case_id".data, .text ";".data, .hole "missing".data]

def wRow9 : List (Str × Str) := [("case_id".data, "C9".data), ("extra".data, "E".data)]

/-- C9 witness: the matched hole becomes `C9`, the unmatched hole stays as
literal placeholder text, and the unused header `extra` has no effect. -/
theorem C9_witness :
    (∀ kv ∈ wRow9, braceFree kv.1) ∧ (∀ kv ∈ wRow9, braceFree kv.2)
    ∧ (∀ s ∈ wSegs9, segOk s)
    ∧ ModifyPayload (renderSegs wSegs9) wRow9 = renderSegs (wSegs9.map (fillRow wRow9))
    ∧ renderSegs (wSegs9.map (fillRow wRow9))
        = "id=C9;".data ++ placeholderPat "missing".data :=
  ⟨by decide, by decide, by decide,
   (C9_modifyPayload_amended).1 wSegs9 wRow9 (by decide) (by decide)
     (segsSideConds wSegs9 (by decide)).1 (segsSideConds wSegs9 (by decide)).2,
   by decide⟩

theorem lookupRow_eq_none (row : List (Str × Str)) (key : Str)
    (h : key ∉ row.map Prod.fst) : lookupRow row key = none := by
  induction row with
  | nil => rfl
  | cons kv rest ih =>
    obtain ⟨k0, v0⟩ := kv
    simp only [List.map_cons, List.mem_cons, not_or] at h
    obtain ⟨h1, h2⟩ := h
    simp only [lookupRow, if_neg (fun he => h1 (Eq.symm he))]
    exact ih h2

theorem lookupRow_mem (row : List (Str × Str)) (key v : Str)
    (h : lookupRow row key = some v) : (key, v) ∈ row := by
  induction row with
  | nil => exact Option.noConfusion h
  | cons kv rest ih =>
    obtain ⟨k0, v0⟩ := kv
    simp only [lookupRow] at h
    split at h
    · rename_i hk
      injection h with hv
      subst hk
      subst hv
      simp
    · exact List.mem_cons_of_mem _ (ih h)

theorem lookupRow_of_mem (row : List (Str × Str)) (key v : Str)
    (hnd : (row.map Prod.fst).Nodup) (h : (key, v) ∈ row) :
    lookupRow row key = some v := by
  induction row with
  | nil => simp at h
  | cons kv rest ih =>
    obtain ⟨k0, v0⟩ := kv
    simp only [List.map_cons, List.nodup_cons] at hnd
    rcases List.mem_cons.mp h with heq | hmem
    · cases heq
      simp [lookupRow]
    · have hk : ¬ (k0 = key) := by
        intro he
        subst he
        exact hnd.1 (List.mem_map.mpr ⟨(k0, v), hmem, rfl⟩)
      simp only [lookupRow, if_neg hk]
      exact ih hnd.2 hmem

theorem lookupRow_perm (row1 row2 : List (Str × Str)) (key : Str)
    (hperm : row1.Perm row2) (hnd : (row1.map Prod.fst).Nodup) :
    lookupRow row1 key = lookupRow row2 key := by
  have hnd2 : (row2.map Prod.fst).Nodup := ((hperm.map Prod.fst).nodup_iff).mp hnd
  cases h1 : lookupRow row1 key with
  | none =>
    have hni : key ∉ row1.map Prod.fst := by
      intro hmem
      rcases List.mem_map.mp hmem with ⟨kv, hkv, hfst⟩
      obtain ⟨k0, v0⟩ := kv
      have hk : k0 = key := hfst
      subst hk
      rw [lookupRow_of_mem row1 k0 v0 hnd hkv] at h1
      exact Option.noConfusion h1
    have hni2 : key ∉ row2.map Prod.fst := fun hmem =>
      hni ((hperm.map Prod.fst).mem_iff.mpr hmem)
    rw [lookupRow_eq_none row2 key hni2]
  | some v =>
    have hm : (key, v) ∈ row2 := hperm.mem_iff.mp (lookupRow_mem row1 key v h1)
    rw [lookupRow_of_mem row2 key v hnd2 hm]

/-- C10 amended: on a template alternating brace-free text with exact
placeholders, with distinct brace-free keys and brace-free values (so no
substituted value introduces further placeholder text), any two iteration
orders over the row's pairs give the same output. -/
theorem C10_order_independence_amended (segs : List Seg)
    (row1 row2 : List (Str × Str)) (hperm : row1.Perm row2)
    (hnd : (row1.map Prod.fst).Nodup)
    (hk1 : ∀ kv ∈ row1, braceFree kv.1) (hv1 : ∀ kv ∈ row1, braceFree kv.2)
    (hT : ∀ t, Seg.text t ∈ segs → braceFree t)
    (hH : ∀ k', Seg.hole k' ∈ segs → braceFree k') :
    ModifyPayload (renderSegs segs) row1 = ModifyPayload (renderSegs segs) row2 := by
  have hk2 : ∀ kv ∈ row2, braceFree kv.1 :=
    fun kv h => hk1 kv (hperm.mem_iff.mpr h)
  have hv2 : ∀ kv ∈ row2, braceFree kv.2 :=
    fun kv h => hv1 kv (hperm.mem_iff.mpr h)
  rw [ModifyPayload_render row1 segs hk1 hv1 hT hH,
    ModifyPayload_render row2 segs hk2 hv2 hT hH]
  congr 1
  apply List.map_congr_left
  intro seg _
  cases seg with
  | text t => rfl
  | hole k =>
    simp only [fillRow, lookupRow_perm row1 row2 k hperm hnd]

def wSegs10 : List Seg := [.text "x".data, .hole "a".data, .text "y".data, .hole "b".data]

def wRow10a : List (Str × Str) := [("a".data, "1".data), ("b".data, "2".data)]

def wRow10b : List (Str × Str) := [("b".data, "2".data), ("a".data, "1".data)]

/-- C10 witness: both iteration orders of a two-key row agree on a
well-formed template. -/
theorem C10_witness :
    wRow10a.Perm wRow10b
    ∧ (wRow10a.map Prod.fst).Nodup
    ∧ ModifyPayload (renderSegs wSegs10) wRow10a
        = ModifyPayload (renderSegs wSegs10) wRow10b :=
  ⟨List.Perm.swap _ _ _, by decide,
   C10_order_independence_amended wSegs10 wRow10a wRow10b (List.Perm.swap _ _ _)
     (by decide) (by decide) (by decide)
     (segsSideConds wSegs10 (by decide)).1 (segsSideConds wSegs10 (by decide)).2⟩

/-! #### `RemoveComments` scanner facts (C8 amended) -/

/-- `m` can sit inside a double-quoted span: every `"` in it is escaped (in
the code's sense: immediately preceded by `\`), and it does not end with a
dangling `\` that would mask the closing quote. -/
def qsafe : Str → Bool
  | [] => true
  | '"' :: _ => false
  | '\\' :: [] => false
  | '\\' :: '"' :: rest => qsafe rest
  | '\\' :: c :: rest => qsafe (c :: rest)
  | _ :: rest => qsafe rest

/-- No `*/` pair anywhere in the characters. -/
def noStarSlash : Str → Bool
  | '*' :: '/' :: _ => false
  | _ :: rest => noStarSlash rest
  | [] => true

theorem rcGo_inString_step (prev : Option Char) (c : Char) (cs : Str)
    (hc : c ≠ '"') :
    removeCommentsGo prev true false false false (c :: cs)
      = c :: removeCommentsGo (some c) true false false false cs := by
  simp [removeCommentsGo, hc]

theorem rcGo_inString_close (prev : Option Char) (B : Str)
    (hprev : prev ≠ some '\\') :
    removeCommentsGo prev true false false false ('"' :: B)
      = '"' :: removeCommentsGo (some '"') false false false false B := by
  simp [removeCommentsGo, hprev]

theorem rcGo_open_quote (prev : Option Char) (B : Str)
    (hprev : prev ≠ some '\\') :
    removeCommentsGo prev false false false false ('"' :: B)
      = '"' :: removeCommentsGo (some '"') true false false false B := by
  simp [removeCommentsGo, hprev]

theorem rcGo_string_scan :
    ∀ (n : Nat) (m : Str), m.length ≤ n → qsafe m = true →
      ∀ (prev : Option Char) (B : Str), (m = [] → prev ≠ some '\\') →
      removeCommentsGo prev true false false false (m ++ '"' :: B)
        = m ++ '"' :: removeCommentsGo (some '"') false false false false B := by
  intro n
  induction n with
  | zero =>
    intro m hm hq prev B hprev
    have : m = [] := List.length_eq_zero.mp (Nat.le_zero.mp hm)
    subst this
    exact rcGo_inString_close prev B (hprev rfl)
  | succ n ih =>
    intro m hm hq prev B hprev
    cases m with
    | nil => exact rcGo_inString_close prev B (hprev rfl)
    | cons c rest =>
      by_cases hcq : c = '"'
      · subst hcq
        simp [qsafe] at hq
      by_cases hcb : c = '\\'
      · subst hcb
        cases rest with
        | nil => simp [qsafe] at hq
        | cons d rest2 =>
          by_cases hd : d = '"'
          · subst hd
            have hq2 : qsafe rest2 = true := by simpa [qsafe] using hq
            have hlen2 : rest2.length ≤ n := by simp at hm; omega
            calc removeCommentsGo prev true false false false
                  (('\\' :: '"' :: rest2) ++ '"' :: B)
                = '\\' :: removeCommentsGo (some '\\') true false false false
                    ('"' :: (rest2 ++ '"' :: B)) := by
                  rw [List.cons_append, List.cons_append]
                  exact rcGo_inString_step prev '\\' _ (by decide)
              _ = '\\' :: '"' :: removeCommentsGo (some '"') true false false false
                    (rest2 ++ '"' :: B) := by
                  simp [removeCommentsGo]
              _ = '\\' :: '"' :: (rest2 ++ '"' ::
                    removeCommentsGo (some '"') false false false false B) := by
                  rw [ih rest2 hlen2 hq2 (some '"') B (fun _ => by decide)]
              _ = ('\\' :: '"' :: rest2) ++ '"' ::
                    removeCommentsGo (some '"') false false false false B := by
                  simp
          · have hq2 : qsafe (d :: rest2) = true := by
              rw [show qsafe ('\\' :: d :: rest2) = qsafe (d :: rest2) from by
                simp [qsafe, hd]] at hq
              exact hq
            have hlen2 : (d :: rest2).length ≤ n := by simp at hm ⊢; omega
            calc removeCommentsGo prev true false false false
                  (('\\' :: d :: rest2) ++ '"' :: B)
                = '\\' :: removeCommentsGo (some '\\') true false false false
                    ((d :: rest2) ++ '"' :: B) := by
                  rw [List.cons_append]
                  exact rcGo_inString_step prev '\\' _ (by decide)
              _ = '\\' :: ((d :: rest2) ++ '"' ::
                    removeCommentsGo (some '"') false false false false B) := by
                  rw [ih (d :: rest2) hlen2 hq2 (some '\\') B
                    (fun he => List.noConfusion he)]
              _ = ('\\' :: d :: rest2) ++ '"' ::
                    removeCommentsGo (some '"') false false false false B := by
                  simp
      · have hq2 : qsafe rest = true := by
          rw [show qsafe (c :: rest) = qsafe rest from by
            simp [qsafe, hcq, hcb]] at hq
          exact hq
        have hlen2 : rest.length ≤ n := by simp at hm; omega
        calc removeCommentsGo prev true false false false ((c :: rest) ++ '"' :: B)
            = c :: removeCommentsGo (some c) true false false false
                (rest ++ '"' :: B) := by
              rw [List.cons_append]
              exact rcGo_inString_step prev c _ hcq
          _ = c :: (rest ++ '"' ::
                removeCommentsGo (some '"') false false false false B) := by
              rw [ih rest hlen2 hq2 (some c) B
                (fun _ => by simp only [ne_eq, Option.some.injEq]; exact hcb)]
          _ = (c :: rest) ++ '"' ::
                removeCommentsGo (some '"') false false false false B := by
              simp

theorem rcGo_lineComment_step (prev : Option Char) (c : Char) (cs : Str)
    (hc : c ≠ '\n') :
    removeCommentsGo prev false false true false (c :: cs)
      = removeCommentsGo (some c) false false true false cs := by
  simp [removeCommentsGo, hc]

theorem rcGo_line_scan :
    ∀ (m : Str) (prev : Option Char) (B : Str), '\n' ∉ m →
      removeCommentsGo prev false false true false (m ++ '\n' :: B)
        = '\n' :: removeCommentsGo (some '\n') false false false false B := by
  intro m
  induction m with
  | nil =>
    intro prev B _
    simp [removeCommentsGo]
  | cons c rest ih =>
    intro prev B hm
    have hc : c ≠ '\n' := fun he => hm (by simp [he])
    rw [List.cons_append, rcGo_lineComment_step prev c _ hc,
      ih (some c) B (fun hmem => hm (by simp [hmem]))]

theorem rcGo_blockComment_step (prev : Option Char) (c : Char) (cs : Str)
    (hc : ¬ (c = '*' ∧ cs.head? = some '/')) :
    removeCommentsGo prev false true false false (c :: cs)
      = removeCommentsGo (some c) false true false false cs := by
  by_cases hstar : c = '*'
  · subst hstar
    have hhd : ¬ (cs.head? = some '/') := fun hh => hc ⟨rfl, hh⟩
    simp [removeCommentsGo, hhd]
  · simp [removeCommentsGo, hstar]

theorem noStarSlash_tail {c : Char} {rest : Str}
    (h : noStarSlash (c :: rest) = true) : noStarSlash rest = true := by
  cases rest with
  | nil => rfl
  | cons d rest2 =>
    by_cases hc : c = '*'
    · subst hc
      by_cases hd : d = '/'
      · subst hd
        simp [noStarSlash] at h
      · simpa [noStarSlash, hd] using h
    · simpa [noStarSlash, hc] using h

theorem noStarSlash_head {m : Str} {B : Str}
    (h : noStarSlash ('*' :: m) = true) :
    (m ++ '*' :: '/' :: B).head? ≠ some '/' := by
  cases m with
  | nil => simp
  | cons c rest =>
    intro hh
    simp only [List.cons_append, List.head?_cons, Option.some.injEq] at hh
    subst hh
    simp [noStarSlash] at h

theorem rcGo_block_scan :
    ∀ (m : Str) (prev : Option Char) (B : Str), noStarSlash m = true →
      removeCommentsGo prev false true false false (m ++ '*' :: '/' :: B)
        = removeCommentsGo (some '/') false false false false B := by
  intro m
  induction m with
  | nil =>
    intro prev B _
    simp [removeCommentsGo]
  | cons c rest ih =>
    intro prev B hm
    have hcond : ¬ (c = '*' ∧ (rest ++ '*' :: '/' :: B).head? = some '/') := by
      rintro ⟨hc, hh⟩
      subst hc
      exact noStarSlash_head hm hh
    rw [List.cons_append, rcGo_blockComment_step prev c _ hcond,
      ih (some c) B (noStarSlash_tail hm)]

/-- C8 amended: `RemoveComments` tracks only double-quoted strings.  From a
base scanning state: (1) inside a string an escaped quote `\"` is copied and
does not toggle the string state; (2) a double-quoted span whose body has
every quote escaped (and no trailing lone `\`) is emitted verbatim;
(3) `//` outside quotes removes everything through the next newline, keeping
the newline; (4) `/*` outside quotes removes everything through the next
`*/`.  (Idempotence and single-quote protection fail: see the
counterexample.) -/
theorem C8_removeComments_amended :
    (∀ (prev : Char) (rest : Str),
      removeCommentsAux (some prev) true false false ('\\' :: '"' :: rest)
        = '\\' :: '"' :: removeCommentsAux (some '"') true false false rest)
    ∧ (∀ (prev : Option Char) (m B : Str), qsafe m = true → prev ≠ some '\\' →
      removeCommentsAux prev false false false ('"' :: (m ++ '"' :: B))
        = '"' :: (m ++ '"' :: removeCommentsAux (some '"') false false false B))
    ∧ (∀ (prev : Option Char) (m B : Str), '\n' ∉ m →
      removeCommentsAux prev false false false ('/' :: '/' :: (m ++ '\n' :: B))
        = '\n' :: removeCommentsAux (some '\n') false false false B)
    ∧ (∀ (prev : Option Char) (m B : Str), noStarSlash ('*' :: m) = true →
      removeCommentsAux prev false false false ('/' :: '*' :: (m ++ '*' :: '/' :: B))
        = removeCommentsAux (some '/') false false false B) := by
  refine ⟨?_, ?_, ?_, ?_⟩
  · intro prev rest
    show removeCommentsGo (some prev) true false false false ('\\' :: '"' :: rest)
      = '\\' :: '"' :: removeCommentsGo (some '"') true false false false rest
    rw [rcGo_inString_step (some prev) '\\' _ (by decide)]
    simp [removeCommentsGo]
  · intro prev m B hq hprev
    show removeCommentsGo prev false false false false ('"' :: (m ++ '"' :: B)) = _
    rw [rcGo_open_quote prev _ hprev,
      rcGo_string_scan m.length m (Nat.le_refl _) hq (some '"') B
        (fun _ => by decide)]
    rfl
  · intro prev m B hnl
    show removeCommentsGo prev false false false false
        ('/' :: '/' :: (m ++ '\n' :: B)) = _
    have hentry : removeCommentsGo prev false false false false
        ('/' :: '/' :: (m ++ '\n' :: B))
        = removeCommentsGo (some '/') false false true false ('/' :: (m ++ '\n' :: B)) := by
      simp [removeCommentsGo]
    rw [hentry, rcGo_lineComment_step (some '/') '/' _ (by decide),
      rcGo_line_scan m (some '/') B hnl]
    rfl
  · intro prev m B hns
    show removeCommentsGo prev false false false false
        ('/' :: '*' :: (m ++ '*' :: '/' :: B)) = _
    have hentry : removeCommentsGo prev false false false false
        ('/' :: '*' :: (m ++ '*' :: '/' :: B))
        = removeCommentsGo (some '/') false true false false
            ('*' :: (m ++ '*' :: '/' :: B)) := by
      simp [removeCommentsGo]
    have hstar : ¬ (('*' : Char) = '*' ∧ (m ++ '*' :: '/' :: B).head? = some '/') := by
      rintro ⟨_, hh⟩
      exact noStarSlash_head hns hh
    rw [hentry, rcGo_blockComment_step (some '/') '*' _ hstar,
      rcGo_block_scan m (some '*') B (noStarSlash_tail hns)]
    rfl

/-- C8 witness: one concrete instance of each clause of the amended
statement. -/
theorem C8_witness :
    (removeCommentsAux (some 'x') true false false ('\\' :: '"' :: "ab".data)
        = '\\' :: '"' :: removeCommentsAux (some '"') true false false "ab".data)
    ∧ (qsafe ('a' :: '\\' :: '"' :: ['b']) = true
      ∧ removeCommentsAux none false false false
          ('"' :: (('a' :: '\\' :: '"' :: ['b']) ++ '"' :: "z//w".data))
        = '"' :: (('a' :: '\\' :: '"' :: ['b']) ++ '"' ::
            removeCommentsAux (some '"') false false false "z//w".data))
    ∧ ('\n' ∉ "ab".data
      ∧ removeCommentsAux none false false false
          ('/' :: '/' :: ("ab".data ++ '\n' :: "z".data))
        = '\n' :: removeCommentsAux (some '\n') false false false "z".data)
    ∧ (noStarSlash ('*' :: "a*b".data) = true
      ∧ removeCommentsAux none false false false
          ('/' :: '*' :: ("a*b".data ++ '*' :: '/' :: "z".data))
        = removeCommentsAux (some '/') false false false "z".data) :=
  ⟨C8_removeComments_amended.1 'x' "ab".data,
   ⟨by decide, C8_removeComments_amended.2.1 none _ "z//w".data (by decide) (by decide)⟩,
   ⟨by decide, C8_removeComments_amended.2.2.1 none "ab".data "z".data (by decide)⟩,
   ⟨by decide, C8_removeComments_amended.2.2.2 none "a*b".data "z".data (by decide)⟩⟩

/-! #### Dispatch invariant and exactly-once processing (C2) -/

theorem mem_set_self {α : Type} :
    ∀ (l : List α) (i : Nat) (a : α), i < l.length → a ∈ l.set i a := by
  intro l
  induction l with
  | nil => intro i a h; simp at h
  | cons x xs ih =>
    intro i a h
    cases i with
    | zero => simp
    | succ j =>
      simp only [List.set_cons_succ, List.mem_cons]
      exact Or.inr (ih j a (by simpa using h))

theorem busyRows_cons (w : WStat) (ws : List WStat) :
    busyRows (w :: ws)
      = (match w with | .busy r => r ::ₘ busyRows ws | _ => busyRows ws) := by
  cases w <;> rfl

theorem busyRows_set_busy :
    ∀ (ws : List WStat) (i : Nat) (r : Row), i < ws.length →
      ws.getD i .finished = .idle →
      busyRows (ws.set i (.busy r)) = r ::ₘ busyRows ws := by
  intro ws
  induction ws with
  | nil => intro i r h; simp at h
  | cons w rest ih =>
    intro i r hi hw
    cases i with
    | zero =>
      have : w = .idle := by simpa [List.getD] using hw
      subst this
      simp [busyRows_cons]
    | succ j =>
      have hj : j < rest.length := by simpa using hi
      have hwj : rest.getD j .finished = .idle := by simpa [List.getD] using hw
      simp only [List.set_cons_succ]
      rw [busyRows_cons, busyRows_cons]
      cases w with
      | busy r0 => rw [ih j r hj hwj, Multiset.cons_swap]
      | idle => exact ih j r hj hwj
      | finished => exact ih j r hj hwj

theorem busyRows_set_idle :
    ∀ (ws : List WStat) (i : Nat) (r : Row), i < ws.length →
      ws.getD i .finished = .busy r →
      r ::ₘ busyRows (ws.set i .idle) = busyRows ws := by
  intro ws
  induction ws with
  | nil => intro i r h; simp at h
  | cons w rest ih =>
    intro i r hi hw
    cases i with
    | zero =>
      have : w = .busy r := by simpa [List.getD] using hw
      subst this
      simp [busyRows_cons]
    | succ j =>
      have hj : j < rest.length := by simpa using hi
      have hwj : rest.getD j .finished = .busy r := by simpa [List.getD] using hw
      simp only [List.set_cons_succ]
      rw [busyRows_cons, busyRows_cons]
      cases w with
      | busy r0 => rw [← ih j r hj hwj, Multiset.cons_swap]
      | idle => exact ih j r hj hwj
      | finished => exact ih j r hj hwj

theorem busyRows_set_finished :
    ∀ (ws : List WStat) (i : Nat), i < ws.length →
      ws.getD i .finished = .idle →
      busyRows (ws.set i .finished) = busyRows ws := by
  intro ws
  induction ws with
  | nil => intro i h; simp at h
  | cons w rest ih =>
    intro i hi hw
    cases i with
    | zero =>
      have : w = .idle := by simpa [List.getD] using hw
      subst this
      simp [busyRows_cons]
    | succ j =>
      have hj : j < rest.length := by simpa using hi
      have hwj : rest.getD j .finished = .idle := by simpa [List.getD] using hw
      simp only [List.set_cons_succ]
      rw [busyRows_cons, busyRows_cons]
      cases w with
      | busy r0 => rw [ih j hj hwj]
      | idle => exact ih j hj hwj
      | finished => exact ih j hj hwj

theorem busyRows_all_finished :
    ∀ ws : List WStat, (∀ w ∈ ws, w = WStat.finished) → busyRows ws = 0 := by
  intro ws
  induction ws with
  | nil => intro _; rfl
  | cons w rest ih =>
    intro h
    have hw : w = .finished := h w (by simp)
    subst hw
    rw [busyRows_cons]
    exact ih (fun w hm => h w (by simp [hm]))

/-- The inductive invariant of a dispatch run: the first `sent` rows are
split among the queue, the workers' hands and the processed list; the
channel closes only after all rows are sent; workers exit only after the
close; and once every worker has exited the queue is empty. -/
def dInv (rows : List Row) (k : Nat) (s : DState) : Prop :=
  s.workers.length = k
  ∧ (s.processedRows : Multiset Row) + (s.queue : Multiset Row) + busyRows s.workers
      = ((rows.take s.sent : List Row) : Multiset Row)
  ∧ s.sent ≤ rows.length
  ∧ (s.chClosed = true → s.sent = rows.length)
  ∧ (∀ w ∈ s.workers, w = WStat.finished → s.chClosed = true)
  ∧ ((s.workers ≠ [] ∧ ∀ w ∈ s.workers, w = WStat.finished) → s.queue = [])

theorem busyRows_replicate_idle : ∀ n : Nat, busyRows (List.replicate n WStat.idle) = 0 := by
  intro n
  induction n with
  | zero => rfl
  | succ m ih => rw [List.replicate_succ, busyRows_cons]; exact ih

theorem dInv_init (rows : List Row) (k : Nat) : dInv rows k (initDState k) := by
  refine ⟨by simp [initDState], ?_, by simp [initDState], ?_, ?_, ?_⟩
  · show (([] : List Row) : Multiset Row) + ↑([] : List Row)
        + busyRows (List.replicate k .idle) = ↑(rows.take 0)
    rw [busyRows_replicate_idle]
    simp
  · intro h
    simp [initDState] at h
  · intro w hw
    have : w = WStat.idle := List.eq_of_mem_replicate hw
    subst this
    intro h
    exact WStat.noConfusion h
  · intro _
    rfl

theorem dInv_step (rows : List Row) (cap k : Nat) (s s' : DState)
    (hinv : dInv rows k s) (hstep : DStep rows cap s s') : dInv rows k s' := by
  obtain ⟨hlen, hms, hsent, hclosed, hfin, hqe⟩ := hinv
  cases hstep with
  | push h1 h2 h3 =>
    refine ⟨hlen, ?_, ?_, ?_, ?_, ?_⟩
    · show (s.processedRows : Multiset Row) + ↑(s.queue ++ [rows.getD s.sent []])
          + busyRows s.workers = ↑(rows.take (s.sent + 1))
      have htake : rows.take (s.sent + 1) = rows.take s.sent ++ [rows.getD s.sent []] := by
        rw [List.take_succ, List.getElem?_eq_getElem h1,
          List.getD_eq_getElem rows [] h1]
        rfl
      rw [htake, ← Multiset.coe_add, ← Multiset.coe_add, ← hms]
      abel
    · show s.sent + 1 ≤ rows.length
      omega
    · intro h
      exact absurd h h3
    · intro w hw hfw
      exact hfin w hw hfw
    · intro ⟨hne, hall⟩
      have hcl : s.chClosed = true := by
        obtain ⟨w0, hw0⟩ := List.exists_mem_of_ne_nil _ hne
        exact hfin w0 hw0 (hall w0 hw0)
      exact absurd hcl h3
  | closeCh h1 h2 =>
    exact ⟨hlen, hms, hsent, fun _ => h1, fun w hw _ => rfl, fun h => hqe h⟩
  | recv i r q' hi hw hq =>
    refine ⟨by simpa using hlen, ?_, hsent, hclosed, ?_, ?_⟩
    · show (s.processedRows : Multiset Row) + ↑q'
          + busyRows (s.workers.set i (.busy r)) = ↑(rows.take s.sent)
      rw [busyRows_set_busy s.workers i r hi hw, ← hms, hq,
        ← Multiset.cons_coe]
      rw [← Multiset.singleton_add, ← Multiset.singleton_add]
      abel
    · intro w hw' hfw
      rcases List.mem_or_eq_of_mem_set hw' with hmem | heq
      · exact hfin w hmem hfw
      · rw [heq] at hfw
        exact WStat.noConfusion hfw
    · intro ⟨hne, hall⟩
      have hbm : WStat.busy r ∈ s.workers.set i (.busy r) :=
        mem_set_self _ i _ (by simpa using hi)
      exact WStat.noConfusion (hall _ hbm)
  | complete i r hi hw =>
    refine ⟨by simpa using hlen, ?_, hsent, hclosed, ?_, ?_⟩
    · show ((s.processedRows ++ [r] : List Row) : Multiset Row) + ↑s.queue
          + busyRows (s.workers.set i .idle) = ↑(rows.take s.sent)
      rw [← hms, ← busyRows_set_idle s.workers i r hi hw, ← Multiset.coe_add]
      rw [← Multiset.singleton_add]
      have hsing : ((([r] : List Row)) : Multiset Row) = {r} := by
        exact Multiset.coe_singleton r
      rw [hsing]
      abel
    · intro w hw' hfw
      rcases List.mem_or_eq_of_mem_set hw' with hmem | heq
      · exact hfin w hmem hfw
      · rw [heq] at hfw
        exact WStat.noConfusion hfw
    · intro ⟨hne, hall⟩
      have him : WStat.idle ∈ s.workers.set i .idle :=
        mem_set_self _ i _ (by simpa using hi)
      exact WStat.noConfusion (hall _ him)
  | exitLoop i hi hw hc hq =>
    refine ⟨by simpa using hlen, ?_, hsent, hclosed, ?_, fun _ => hq⟩
    · show (s.processedRows : Multiset Row) + ↑s.queue
          + busyRows (s.workers.set i .finished) = ↑(rows.take s.sent)
      rw [busyRows_set_finished s.workers i hi hw]
      exact hms
    · intro w hw' _
      exact hc

theorem dInv_reach (rows : List Row) (cap k : Nat) (s : DState)
    (h : DReach rows cap k s) : dInv rows k s := by
  induction h with
  | refl => exact dInv_init rows k
  | tail hab hbc ih => exact dInv_step rows cap k _ _ ih hbc

/-- C2: in every interleaving of the dispatch run, once all `k ≥ 1` workers
have exited (which is exactly when `wg.Wait` returns), the multiset of
processed rows is a permutation of the data rows: every row was processed
exactly once — none dropped, none dispatched twice — and the join could not
have completed earlier. -/
theorem C2_dispatch_exactly_once (rows : List Row) (cap k : Nat) (hk : 1 ≤ k)
    (s : DState) (hreach : DReach rows cap k s)
    (hdone : ∀ w ∈ s.workers, w = WStat.finished) :
    s.processedRows.Perm rows := by
  obtain ⟨hlen, hms, hsent, hclosed, hfin, hqe⟩ := dInv_reach rows cap k s hreach
  have hwne : s.workers ≠ [] := by
    intro h
    rw [h] at hlen
    simp at hlen
    omega
  obtain ⟨w0, hw0⟩ := List.exists_mem_of_ne_nil _ hwne
  have hcl : s.chClosed = true := hfin w0 hw0 (hdone w0 hw0)
  have hsent' : s.sent = rows.length := hclosed hcl
  have hq : s.queue = [] := hqe ⟨hwne, hdone⟩
  have hb : busyRows s.workers = 0 := busyRows_all_finished _ hdone
  rw [hq, hb, hsent', List.take_length] at hms
  have : (s.processedRows : Multiset Row) = ↑rows := by
    simpa using hms
  exact Multiset.coe_eq_coe.mp this

def wRows2 : List Row := [["C1".data]]

/-- C2 witness: a complete concrete interleaving with one worker and one
row — push, close, receive, complete, exit — after which the processed
rows are exactly the input rows. -/
theorem C2_witness :
    DReach wRows2 1 1
      { sent := 1, chClosed := true, queue := [], workers := [.finished],
        processedRows := [["C1".data]] }
    ∧ (∀ w ∈ [WStat.finished], w = WStat.finished)
    ∧ ([["C1".data]] : List Row).Perm wRows2 := by
  have htrace : DReach wRows2 1 1
      { sent := 1, chClosed := true, queue := [], workers := [.finished],
        processedRows := [["C1".data]] } :=
    Relation.ReflTransGen.tail
      (Relation.ReflTransGen.tail
        (Relation.ReflTransGen.tail
          (Relation.ReflTransGen.tail
            (Relation.ReflTransGen.tail Relation.ReflTransGen.refl
              (DStep.push (initDState 1) (by decide) (by decide) (by decide)))
            (DStep.closeCh _ (by decide) (by decide)))
          (DStep.recv _ 0 ["C1".data] [] (by decide) (by decide) (by decide)))
        (DStep.complete _ 0 ["C1".data] (by decide) (by decide)))
      (DStep.exitLoop _ 0 (by decide) (by decide) (by decide) (by decide))
  exact ⟨htrace, by decide,
    C2_dispatch_exactly_once wRows2 1 1 (by decide) _ htrace (by decide)⟩

end ThinkerTools
